import Mathlib

/-!
Verification development for the CodeChecker build-logger (ldlogger).

C strings are modelled as lists of byte values (`List Nat`, without the
terminating NUL).  The embedded functions mirror the C sources
`ldlogger-util.c`, `ldlogger-logger.c`, `ldlogger-tool.c`,
`ldlogger-tool-gcc.c` and `ldlogger-tool-javac.c`.  Filesystem-dependent
primitives (`loggerMakePathAbs`, `findFullPath`, `wordexp`, reading a
response file) are abstracted into an environment record, since their
results depend on the state of the file system and of the process
environment, not on the code under verification.
-/

namespace Ldlogger

/-- Byte strings: the byte values of a NUL-terminated C string. -/
abbrev Str := List Nat

/-- Bytes of an ASCII Lean string literal. -/
def str (s : String) : Str := s.data.map Char.toNat

/-- Low hex digit used by shellEscapeStr: dec2hex_last_digit[b] for b < 0x20. -/
def hexLow (b : Nat) : Nat :=
  if b % 16 < 10 then 48 + b % 16 else 55 + b % 16

/-- High hex digit written by shellEscapeStr for a control byte. -/
def hexHi (b : Nat) : Nat := if b < 16 then 48 else 49

/-- Expansion of one input byte by shellEscapeStr (ldlogger-util.c:122-221).
The switch escapes BEL, ESC, TAB, BS, FF, CR, VT, NL and space as a
double-backslash plus a letter, quote and backslash with three backslashes,
any other byte below 0x20 as a double-backslash hex escape, and copies the
rest verbatim. -/
def escByte (b : Nat) : Str :=
  if b = 7 then [92, 92, 97]
  else if b = 27 then [92, 92, 101]
  else if b = 9 then [92, 92, 116]
  else if b = 8 then [92, 92, 98]
  else if b = 12 then [92, 92, 102]
  else if b = 13 then [92, 92, 114]
  else if b = 11 then [92, 92, 118]
  else if b = 10 then [92, 92, 110]
  else if b = 32 then [92, 92, 32]
  else if b = 92 then [92, 92, 92, 92]
  else if b = 34 then [92, 92, 92, 34]
  else if b < 32 then [92, 92, 120, hexHi b, hexLow b]
  else [b]

/-- shellEscapeStr (ldlogger-util.c:122-221): the combined shell+JSON escaper,
processing the input byte by byte. -/
def shellEscapeStr : Str → Str
  | [] => []
  | b :: r => escByte b ++ shellEscapeStr r

/-- Bytes of the C string literal "\a0x1B\t\b\f\r\v\n " that
predictEscapedSize passes to strchr (ldlogger-util.c:105).  The author
evidently meant the ESC character 0x1B, but the literal actually contains
the four characters '0', 'x', '1', 'B'. -/
def predictList : Str := [7, 48, 120, 49, 66, 9, 8, 12, 13, 11, 10, 32]

/-- Per-byte size accounted by predictEscapedSize (ldlogger-util.c:81-120). -/
def predictByte (b : Nat) : Nat :=
  if b ∈ predictList then 3
  else if b = 34 ∨ b = 92 then 4
  else if b < 32 then 5
  else 1

/-- predictEscapedSize (ldlogger-util.c:81-120), including the +1 for the
closing NUL. -/
def predictEscapedSize : Str → Nat
  | [] => 1
  | b :: r => predictByte b + predictEscapedSize r

/-- Escape characters admitted after a backslash in a JSON string
(the \uXXXX form, which the emitter never produces, is not modelled). -/
def jsonEscSet : Str := [34, 92, 47, 98, 102, 110, 114, 116]

/-- Modelled from the spec: value of a single-character JSON escape. -/
def jsonUnescChar (c : Nat) : Nat :=
  if c = 98 then 8
  else if c = 102 then 12
  else if c = 110 then 10
  else if c = 114 then 13
  else if c = 116 then 9
  else c

/-- Modelled from the spec: JSON string-body decoder.  The emitted command
string lives inside a JSON string, so a reader first applies this layer.
Raw control bytes and raw quotes are invalid inside a JSON string. -/
def jsonUnescape : Str → Option Str
  | [] => some []
  | b :: r =>
    if b = 92 then
      match r with
      | [] => none
      | c :: r2 =>
        if c ∈ jsonEscSet then
          (jsonUnescape r2).map (fun u => jsonUnescChar c :: u)
        else none
    else if b < 32 ∨ b = 34 then none
    else (jsonUnescape r).map (fun u => b :: u)

/-- Hex digit test for the \xNN shell escape. -/
def isHexDigitB (c : Nat) : Bool :=
  (48 ≤ c && c ≤ 57) || (65 ≤ c && c ≤ 70) || (97 ≤ c && c ≤ 102)

/-- Value of a hex digit byte. -/
def hexVal (c : Nat) : Nat :=
  if 48 ≤ c ∧ c ≤ 57 then c - 48
  else if 65 ≤ c ∧ c ≤ 70 then c - 55
  else if 97 ≤ c ∧ c ≤ 102 then c - 87
  else 0

/-- Modelled from the spec: value of a single-character shell escape, as
targeted by the escaper (backslash-letter forms for the whitespace and
control letters, backslash-self for every other character). -/
def shellUnescChar (c : Nat) : Nat :=
  if c = 97 then 7
  else if c = 101 then 27
  else if c = 116 then 9
  else if c = 98 then 8
  else if c = 102 then 12
  else if c = 114 then 13
  else if c = 118 then 11
  else if c = 110 then 10
  else c

/-- Modelled from the spec: shell-unescape layer.  A backslash escapes the
next character; \xNN with two hex digits denotes the byte NN (a malformed
\x sequence, which the escaper never emits, is a decode error). -/
def shellUnescape : Str → Option Str
  | [] => some []
  | b :: r =>
    if b = 92 then
      match r with
      | [] => none
      | c :: r2 =>
        if c = 120 then
          match r2 with
          | h1 :: h2 :: r3 =>
            if isHexDigitB h1 && isHexDigitB h2 then
              (shellUnescape r3).map (fun u => (hexVal h1 * 16 + hexVal h2) :: u)
            else none
          | _ => none
        else (shellUnescape r2).map (fun u => shellUnescChar c :: u)
    else (shellUnescape r).map (fun u => b :: u)

/-- Prepend a byte to the first word of a word list. -/
def consHead (b : Nat) : List Str → List Str
  | [] => [[b]]
  | w :: ws => (b :: w) :: ws

/-- Modelled from the spec: shell word splitting of the decoded command.
Every unescaped space separates words; escaped characters go into the
current word. -/
def shellSplitWords : Str → Option (List Str)
  | [] => some [[]]
  | b :: r =>
    if b = 32 then
      (shellSplitWords r).map (fun ws => [] :: ws)
    else if b = 92 then
      match r with
      | [] => none
      | c :: r2 =>
        if c = 120 then
          match r2 with
          | h1 :: h2 :: r3 =>
            if isHexDigitB h1 && isHexDigitB h2 then
              (shellSplitWords r3).map (consHead (hexVal h1 * 16 + hexVal h2))
            else none
          | _ => none
        else (shellSplitWords r2).map (consHead (shellUnescChar c))
    else (shellSplitWords r).map (consHead b)

/-- Intermediate JSON-layer image of one escaped byte: what remains of
`escByte b` after the JSON string layer is decoded. -/
def jsonChunk (b : Nat) : Str :=
  if b = 7 then [92, 97]
  else if b = 27 then [92, 101]
  else if b = 9 then [92, 116]
  else if b = 8 then [92, 98]
  else if b = 12 then [92, 102]
  else if b = 13 then [92, 114]
  else if b = 11 then [92, 118]
  else if b = 10 then [92, 110]
  else if b = 32 then [92, 32]
  else if b = 92 then [92, 92]
  else if b = 34 then [92, 34]
  else if b < 32 then [92, 120, hexHi b, hexLow b]
  else [b]

/-- JSON-layer image of a whole escaped string. -/
def jsonEsc : Str → Str
  | [] => []
  | b :: r => jsonChunk b ++ jsonEsc r

/-- Tail of the command serialisation: a separating space then the escaped
argument, for each remaining argument (ldlogger-logger.c:51-56). -/
def escJoinRest : List Str → Str
  | [] => []
  | a :: r => (32 :: shellEscapeStr a) ++ escJoinRest r

/-- createJsonCommandString (ldlogger-logger.c:24-60): the escaped argument
vector joined by single spaces.  For an empty argument vector the C code
reads uninitialised memory; the model returns the empty string and the
emitter theorems assume a non-empty vector. -/
def createJsonCommandString (args : List Str) : Str :=
  match args with
  | [] => []
  | a :: r => shellEscapeStr a ++ escJoinRest r

/-- All bytes of a C string lie strictly between 0 and 256. -/
abbrev OkBytes (s : Str) : Prop := ∀ b ∈ s, 0 < b ∧ b < 256

/-- Append a string to the front of the first word of a word list. -/
def appHead (s : Str) : List Str → List Str
  | [] => [s]
  | w :: ws => (s ++ w) :: ws

/-- JSON-layer image of the space-separated tail of the command string. -/
def jsonRest : List Str → Str
  | [] => []
  | a :: r => (32 :: jsonEsc a) ++ jsonRest r

/-- Composition of the two decode layers a reader applies to the `command`
field: JSON string decoding, then shell unescaping. -/
def shellJsonDecode (l : Str) : Option Str := (jsonUnescape l).bind shellUnescape

/-- Composition a reader applies to recover the argument vector: JSON string
decoding, then shell word splitting. -/
def shellJsonSplit (l : Str) : Option (List Str) := (jsonUnescape l).bind shellSplitWords

/-- Action (ldlogger-tool.h): one parsed compiler invocation.  The
`LoggerFile` wrapper of the output path is flattened to the path string. -/
structure Action where
  output : Str
  arguments : List Str
  sources : List Str
deriving DecidableEq

/-- Key name bytes of the first entry field: "directory". -/
def dirKey : Str := [100, 105, 114, 101, 99, 116, 111, 114, 121]

/-- Key name bytes of the second entry field: "command". -/
def cmdKey : Str := [99, 111, 109, 109, 97, 110, 100]

/-- Key name bytes of the third entry field: "file". -/
def fileKey : Str := [102, 105, 108, 101]

/-- The three key names of every emitted database object. -/
def keysTriple : List Str := [dirKey, cmdKey, fileKey]

/-- JSON whitespace test. -/
def isWsB (b : Nat) : Bool := b == 32 || b == 9 || b == 10 || b == 13

/-- Single-character escapes accepted after a backslash in a JSON string. -/
def jsonEscOkB (b : Nat) : Bool :=
  b == 34 || b == 92 || b == 47 || b == 98 || b == 102 || b == 110 ||
    b == 114 || b == 116

/-- Modelled from the spec: scanner modes of a checker for the emitted
on-disk format, a JSON array of objects whose members are string-valued. -/
inductive JMode where
  | jStart : JMode
  | jElem : Bool → JMode
  | jMember : Bool → JMode
  | jKey : JMode
  | jKeyEsc : JMode
  | jColon : JMode
  | jValQ : JMode
  | jVal : JMode
  | jValEsc : JMode
  | jAfterVal : JMode
  | jAfterElem : JMode
  | jDone : JMode
  | jFail : JMode
deriving DecidableEq

/-- Scanner state: mode, key being read, keys of the object being read, and
the key lists of the completed objects. -/
structure JState where
  mode : JMode
  curKey : Str
  curKeys : List Str
  objs : List (List Str)
deriving DecidableEq

/-- Modelled from the spec: one byte of JSON-array-of-string-objects
recognition.  `jElem true` admits `]` (just after `[`); `jMember true`
admits `}` (just after `{`); a trailing comma is rejected. -/
def jsonStep (s : JState) (b : Nat) : JState :=
  match s.mode with
  | .jStart =>
    if isWsB b then s
    else if b = 91 then { s with mode := .jElem true }
    else { s with mode := .jFail }
  | .jElem allow =>
    if isWsB b then s
    else if b = 123 then { s with mode := .jMember true, curKeys := [] }
    else if b = 93 then
      (if allow then { s with mode := .jDone } else { s with mode := .jFail })
    else { s with mode := .jFail }
  | .jMember allowClose =>
    if isWsB b then s
    else if b = 34 then { s with mode := .jKey, curKey := [] }
    else if b = 125 then
      (if allowClose then
        { s with mode := .jAfterElem, objs := s.objs ++ [s.curKeys], curKeys := [] }
      else { s with mode := .jFail })
    else { s with mode := .jFail }
  | .jKey =>
    if b = 34 then { s with mode := .jColon, curKeys := s.curKeys ++ [s.curKey] }
    else if b = 92 then { s with mode := .jKeyEsc }
    else if 32 ≤ b then { s with curKey := s.curKey ++ [b] }
    else { s with mode := .jFail }
  | .jKeyEsc =>
    if jsonEscOkB b then { s with mode := .jKey, curKey := s.curKey ++ [92, b] }
    else { s with mode := .jFail }
  | .jColon =>
    if isWsB b then s
    else if b = 58 then { s with mode := .jValQ }
    else { s with mode := .jFail }
  | .jValQ =>
    if isWsB b then s
    else if b = 34 then { s with mode := .jVal }
    else { s with mode := .jFail }
  | .jVal =>
    if b = 34 then { s with mode := .jAfterVal }
    else if b = 92 then { s with mode := .jValEsc }
    else if 32 ≤ b then s
    else { s with mode := .jFail }
  | .jValEsc =>
    if jsonEscOkB b then { s with mode := .jVal }
    else { s with mode := .jFail }
  | .jAfterVal =>
    if isWsB b then s
    else if b = 44 then { s with mode := .jMember false }
    else if b = 125 then
      { s with mode := .jAfterElem, objs := s.objs ++ [s.curKeys], curKeys := [] }
    else { s with mode := .jFail }
  | .jAfterElem =>
    if isWsB b then s
    else if b = 44 then { s with mode := .jElem false }
    else if b = 93 then { s with mode := .jDone }
    else { s with mode := .jFail }
  | .jDone => if isWsB b then s else { s with mode := .jFail }
  | .jFail => s

/-- Initial scanner state. -/
def jsonInit : JState := ⟨.jStart, [], [], []⟩

/-- Modelled from the spec: run the scanner over a file content; on success
return the key lists of the parsed objects. -/
def jsonScan (l : Str) : Option (List (List Str)) :=
  let s := l.foldl jsonStep jsonInit
  if s.mode = .jDone then some s.objs else none

/-- Separator written before every entry but the first: "\t,\n"
(ldlogger-logger.c:81). -/
def sepBytes : Str := [9, 44, 10]

/-- Literal bytes up to the directory value: tab, open brace, newline, two
tabs, quoted key, colon, space, open quote (ldlogger-logger.c:84-89). -/
def entryPre1 : Str := [9, 123, 10, 9, 9, 34] ++ dirKey ++ [34, 58, 32, 34]

/-- Literal bytes between the directory and command values. -/
def entryPre2 : Str := [34, 44, 10, 9, 9, 34] ++ cmdKey ++ [34, 58, 32, 34]

/-- Literal bytes between the command and file values. -/
def entryPre3 : Str := [34, 44, 10, 9, 9, 34] ++ fileKey ++ [34, 58, 32, 34]

/-- Literal bytes closing an entry: quote, newline, tab, close brace,
newline. -/
def entryPost : Str := [34, 10, 9, 125, 10]

/-- One database entry as printed by writeAction (ldlogger-logger.c:84-93). -/
def entryBytes (wd cmd src : Str) : Str :=
  entryPre1 ++ (wd ++ (entryPre2 ++ (cmd ++ (entryPre3 ++ (src ++ entryPost)))))

/-- writeAction inner loop body (ldlogger-logger.c:77-94): prepend the
separator once the running entry count exceeds one, then print the entry. -/
def writeOneSource (wd cmd : Str) (acc : Str × Nat) (src : Str) : Str × Nat :=
  (acc.1 ++ (if acc.2 + 1 > 1 then sepBytes else []) ++ entryBytes wd cmd src,
    acc.2 + 1)

/-- writeAction (ldlogger-logger.c:62-97).  An action with an empty argument
vector would make the C code read uninitialised memory; the model skips it
and the emitter theorems assume a non-empty argument vector. -/
def writeAction (wd : Str) (a : Action) (acc : Str × Nat) : Str × Nat :=
  match a.arguments with
  | [] => acc
  | _ :: _ =>
    a.sources.foldl (writeOneSource wd (createJsonCommandString a.arguments)) acc

/-- writeActions (ldlogger-logger.c:99-140): no write on an empty action
list; a zero-length file gets an opening bracket; otherwise the final `]` is
overwritten, and the entry count is seeded to one when the previous length
exceeds five bytes. -/
def writeActions (wd : Str) (actions : List Action) (content : Str) : Str :=
  if actions = [] then content
  else
    let seed : Nat := if content.length = 0 then 0
      else if 5 < content.length then 1 else 0
    let body := (actions.foldl (fun acc a => writeAction wd a acc) ([], seed)).1
    if content.length = 0 then [91, 10] ++ body ++ [93]
    else content.dropLast ++ body ++ [93]

/-- Serialised emitter calls (each holding the lock): fold writeActions over
a sequence of (working directory, action list) calls, starting from an
absent or zero-length database. -/
def runWrites (calls : List (Str × List Action)) : Str :=
  calls.foldl (fun content c => writeActions c.1 c.2 content) []

/-- Total number of (Action, source) pairs over a call sequence. -/
def pairTotal (calls : List (Str × List Action)) : Nat :=
  (calls.map (fun c => (c.2.map (fun a => a.sources.length)).sum)).sum

/-- Entries contributed by one action: one (directory, command, file)
triple per source, none when the argument vector is empty. -/
def actionEntries (wd : Str) (a : Action) : List (Str × Str × Str) :=
  match a.arguments with
  | [] => []
  | _ :: _ => a.sources.map (fun s => (wd, createJsonCommandString a.arguments, s))

/-- Entries contributed by one emitter call. -/
def callEntries (wd : Str) (actions : List Action) : List (Str × Str × Str) :=
  (actions.map (actionEntries wd)).flatten

/-- Entries contributed by a whole call sequence. -/
def allEntries (calls : List (Str × List Action)) : List (Str × Str × Str) :=
  (calls.map (fun c => callEntries c.1 c.2)).flatten

/-- Rendering of all entries after the first: each preceded by the
separator. -/
def entriesTail : List (Str × Str × Str) → Str
  | [] => []
  | e :: es => sepBytes ++ entryBytes e.1 e.2.1 e.2.2 ++ entriesTail es

/-- Rendering of an entry sequence: first entry unseparated. -/
def entriesBlock : List (Str × Str × Str) → Str
  | [] => []
  | e :: es => entryBytes e.1 e.2.1 e.2.2 ++ entriesTail es

/-- A well-formed database file: bracket, newline, entries, bracket. -/
def wrapDb (es : List (Str × Str × Str)) : Str :=
  [91, 10] ++ entriesBlock es ++ [93]

/-- Rendering of an entry sequence starting from entry count c: the first
entry is preceded by the separator exactly when c is already positive. -/
def renderFrom (c : Nat) (es : List (Str × Str × Str)) : Str :=
  if c = 0 then entriesBlock es else entriesTail es

/-- Body of a JSON string value is well formed: escapes complete and valid,
no raw control byte, no raw quote.  The flag records a pending backslash. -/
def valSafeAux : Str → Bool → Bool
  | [], pending => !pending
  | b :: r, true => jsonEscOkB b && valSafeAux r false
  | b :: r, false =>
    if b = 92 then valSafeAux r true
    else if b = 34 then false
    else if 32 ≤ b then valSafeAux r false
    else false

/-- Well-formed JSON string body, no pending escape. -/
def valSafeB (s : Str) : Bool := valSafeAux s false

/-- A string that may be embedded verbatim in a JSON string: no byte below
0x20, no quote, no backslash.  The emitter writes the directory and file
fields verbatim, so the well-formedness theorem assumes this of them. -/
abbrev JsonSafe (s : Str) : Prop := ∀ b ∈ s, 32 ≤ b ∧ b ≠ 34 ∧ b ≠ 92

/-- File-system state visible to logExec: the database file, its existence,
and the existence of the sibling .lock file. -/
structure Fs where
  dbExists : Bool
  lockExists : Bool
  db : Str
deriving DecidableEq

/-- logExec (ldlogger-logger.c:224-269).  The Booleans model success of the
lock-path resolution, of opening the lock file, of flock, of opening the
database with O_CREAT, and of fdopen; `cwd` models getcwd inside
logProgramArgs.  The collected action list is passed in directly. -/
def logExec (ccLoggerFile : Option Str)
    (resolveOk openLockOk flockOk dbOpenOk fdopenOk : Bool)
    (cwd : Option Str) (argc : Nat) (actions : List Action) (fs : Fs) :
    Int × Fs :=
  if argc < 2 then (-1, fs)
  else
    match ccLoggerFile with
    | none => (-3, fs)
    | some _ =>
      if !resolveOk then (-5, fs)
      else if !openLockOk then (-5, fs)
      else
        let fs1 := { fs with lockExists := true }
        if !flockOk then (-5, fs1)
        else if !dbOpenOk then (-7, fs1)
        else
          let fs2 := { fs1 with dbExists := true }
          if !fdopenOk then (-9, fs2)
          else
            match cwd with
            | none => (0, fs2)
            | some wd => (0, { fs2 with db := writeActions wd actions fs2.db })


/-- Suffix of the list starting at the last occurrence of byte c (the
strrchr pointer), none when c does not occur. -/
def strrchrSuffix (c : Nat) : Str → Option Str
  | [] => none
  | b :: r =>
    match strrchrSuffix c r with
    | some s => some s
    | none => if b = c then some (b :: r) else none

/-- Index of the first occurrence of the needle in the haystack (strstr). -/
def strstrIdx (needle : Str) : Str → Option Nat
  | [] => if needle.isPrefixOf [] then some 0 else none
  | b :: t =>
    if needle.isPrefixOf (b :: t) then some 0
    else (strstrIdx needle t).map (fun n => n + 1)

/-- strstr(hay, needle) != NULL. -/
def strstrB (hay needle : Str) : Bool := (strstrIdx needle hay).isSome

/-- startsWith (ldlogger-util.c:223-226): strstr(str, prefix) == str, which
holds exactly when the second argument is a prefix of the first. -/
def startsWith (s p : Str) : Bool := p.isPrefixOf s

/-- Split at every colon, keeping empty segments (the raw colon-separated
list; always non-empty). -/
def colonSplit (l : Str) : List Str :=
  l.foldr
    (fun b acc =>
      if b = 58 then [] :: acc
      else
        match acc with
        | [] => [[b]]
        | w :: ws => (b :: w) :: ws)
    [[]]

/-- strtok-style tokenisation on colons (ldlogger-tool.c:53-84): empty
tokens are skipped. -/
def strtokSplit (l : Str) : List Str :=
  (colonSplit l).filter (fun w => !w.isEmpty)

/-- Basename used by the classifier (ldlogger-tool.c:66-71): the part after
the last slash, or the whole path when there is none. -/
def progBasename (p : Str) : Str :=
  match strrchrSuffix 47 p with
  | some s => s.drop 1
  | none => p

/-- One matcher token test (ldlogger-tool.c:56-74): a token with a slash
matches when the FIRST strstr occurrence of the token in the path runs to
the end of the path; a token without a slash matches as a substring of the
basename. -/
def matchOneToken (progPath tok : Str) : Bool :=
  if tok.contains 47 then
    match strstrIdx tok progPath with
    | some i => progPath.drop i == tok
    | none => false
  else strstrB (progBasename progPath) tok

/-- matchToProgramList (ldlogger-tool.c:35-88), with the environment
variable value passed in (none models an unset variable). -/
def matchToProgramList (envVal : Option Str) (progPath : Str) : Bool :=
  match envVal with
  | none => false
  | some v => (strtokSplit v).any (fun tok => matchOneToken progPath tok)

/-- Needle bytes of "LD_PRELOAD=". -/
def ldPreloadNeedle : Str := [76, 68, 95, 80, 82, 69, 76, 79, 65, 68, 61]

/-- turnLogging (ldlogger-tool.c:93-103): every environment entry that
contains "LD_PRELOAD=" anywhere gets its FIRST byte set to L (on) or
X (off). -/
def turnLogging (enable : Bool) (env : List Str) : List Str :=
  env.map (fun e =>
    if strstrB e ldPreloadNeedle then e.set 0 (if enable then 76 else 88) else e)

/-- Process environment and file system abstraction for the parsers.  The
option-valued fields model environment variables (none when unset);
pathLookup models findFullPath over PATH; makeAbsFn models
loggerMakePathAbs on a non-empty path (none on resolution failure);
resolveClassPath models handleClassPath (wordexp and the file system);
argsFile models the raw getline lines of a response file, newlines
included, with an unreadable file giving the empty list. -/
structure Env where
  keepLink : Bool
  absPathSet : Bool
  defDirs : List Str
  cpath : Option Str
  cplusIncludePath : Option Str
  cIncludePath : Option Str
  gccLike : Option Str
  javacLike : Option Str
  pathLookup : Str → Option Str
  makeAbsFn : Str → Option Str
  resolveClassPath : Str → Str
  argsFile : Str → List Str

/-- loggerMakePathAbs with mustExist=0: an empty path always fails, the
rest is the abstract resolver. -/
def makeAbs0 (env : Env) (p : Str) : Option Str :=
  if p = [] then none else env.makeAbsFn p

/-- loggerFileInitFromPath (ldlogger-tool.c:105-116): resolve, falling
back to the verbatim path on failure. -/
def fileInit (env : Env) (p : Str) : Str := (makeAbs0 env p).getD p

/-- tolower on a byte. -/
def toLowerB (b : Nat) : Nat := if 65 ≤ b ∧ b ≤ 90 then b + 32 else b

/-- loggerGetFileName (ldlogger-util.c:560-581).  The C code takes the
strrchr suffix (or the whole string), returns NULL when its second byte is
the terminator, then advances one byte — so for a slash-less path the
first character is dropped.  An empty path makes the C code read past the
buffer; the model returns none. -/
def loggerGetFileName (p : Str) (withoutExt : Bool) : Option Str :=
  match (strrchrSuffix 47 p).getD p with
  | [] => none
  | [_] => none
  | _ :: rest =>
    if withoutExt then
      match strrchrSuffix 46 rest with
      | some s => some (rest.take (rest.length - s.length))
      | none => some rest
    else some rest

/-- loggerGetFileExt (ldlogger-util.c:499-532) with tolower: the lowercased
bytes after the last dot of the file name, none when there is no dot. -/
def loggerGetFileExt (p : Str) : Option Str :=
  match loggerGetFileName p false with
  | none => none
  | some fn =>
    match strrchrSuffix 46 fn with
    | none => none
    | some s => some ((s.drop 1).map toLowerB)

/-- loggerGetFilePathWithoutExt (ldlogger-util.c:549-558). -/
def loggerGetFilePathWithoutExt (p : Str) : Str :=
  match strrchrSuffix 46 p with
  | some s => p.take (p.length - s.length)
  | none => p

/-- Accepted source extensions (ldlogger-tool-gcc.c:24-26): c, cc, cp,
cpp, cxx, c++, o, so, a. -/
def srcExts : List Str :=
  [[99], [99, 99], [99, 112], [99, 112, 112], [99, 120, 120], [99, 43, 43],
   [111], [115, 111], [97]]

/-- Object-file extensions (ldlogger-tool-gcc.c:31-33): o, so, a. -/
def objExts : List Str := [[111], [115, 111], [97]]

/-- C compiler name infixes (ldlogger-tool-gcc.c:38-40). -/
def cCompilerNames : List Str := [[103, 99, 99], [99, 99], [99, 108, 97, 110, 103]]

/-- C++ compiler name infixes (ldlogger-tool-gcc.c:45-47). -/
def cppCompilerNames : List Str := [[103, 43, 43], [99, 43, 43], [99, 108, 97, 110, 103, 43, 43]]

/-- isObjectFile (ldlogger-tool-gcc.c:230-244).  A file without an
extension would make the C code pass NULL to strcmp; the model answers
false there (that case is unreachable for collected sources). -/
def isObjectFile (p : Str) : Bool :=
  match loggerGetFileExt p with
  | some e => objExts.contains e
  | none => false

/-- loggerVectorAddUnique with strcmp (ldlogger-util.c:399-412): drop the
candidate when an equal string is present, append otherwise. -/
def addUnique (l : List Str) (x : Str) : List Str :=
  if x ∈ l then l else l ++ [x]

/-- The keep-link filter loop (ldlogger-tool-gcc.c:539-543): repeatedly
erase the first source that isObjectFile accepts, until none is found.
Fuel bounds the iteration count; one erase per round makes the list
shorter, so fuel = length + 1 always suffices. -/
def removeObjLoop : Nat → List Str → List Str
  | 0, l => l
  | fuel + 1, l =>
    match l.findIdx? (fun s => isObjectFile s) with
    | some i => removeObjLoop fuel (l.eraseIdx i)
    | none => l

/-- Language classification of the GCC parser. -/
inductive GccLang where
  | langC : GccLang
  | langCpp : GccLang
deriving DecidableEq

/-- State of the argument scan loop (ldlogger-tool-gcc.c:379-454). -/
structure GccScanSt where
  args : List Str
  lastInc : Nat
  lastSysInc : Nat
  lang : GccLang
  output : Str
  sources : List Str
deriving DecidableEq

/-- Append a non-empty argument to the built argument vector
(ldlogger-tool-gcc.c:383-384). -/
def appendArg (st : GccScanSt) (cur : Str) : GccScanSt :=
  if cur ≠ [] then { st with args := st.args ++ [cur] } else st

/-- One iteration of the argument scan (ldlogger-tool-gcc.c:379-454):
append the argument when non-empty; track the -I / -isystem cursors; -x
overrides the language; -o sets the output; a non-flag argument with an
accepted source extension joins the source set (absolutised when
CC_LOGGER_ABS_PATH is set, falling back to the verbatim path when
resolution fails, where the C code would use an uninitialised buffer). -/
def gccScanStep (env : Env) (st : GccScanSt) (cur : Str) (next : Option Str) :
    GccScanSt :=
  let st1 := appendArg st cur
  if cur.head? = some 45 then
    if startsWith cur [45, 73] then
      { st1 with lastInc := st1.args.length + (if 2 < cur.length then 0 else 1) }
    else if startsWith cur [45, 105, 115, 121, 115, 116, 101, 109] then
      { st1 with lastSysInc := st1.args.length + (if 8 < cur.length then 0 else 1) }
    else if startsWith cur [45, 120] then
      match (if 2 < cur.length then some (cur.drop 2) else next) with
      | some lv =>
        if lv = [99] ∨ lv = [99, 45, 104, 101, 97, 100, 101, 114] then { st1 with lang := .langC }
        else if lv = [99, 43, 43] ∨ lv = [99, 43, 43, 45, 104, 101, 97, 100, 101, 114] then
          { st1 with lang := .langCpp }
        else st1
      | none => st1
    else if startsWith cur [45, 111] then
      match (if 2 < cur.length then some (cur.drop 2) else next) with
      | some p => { st1 with output := fileInit env p }
      | none => st1
    else st1
  else
    match loggerGetFileExt cur with
    | some e =>
      if srcExts.contains e then
        let newPath := if env.absPathSet then (makeAbs0 env cur).getD cur else cur
        { st1 with sources := addUnique st1.sources newPath }
      else st1
    | none => st1

/-- The scan loop over argv[1..], with one-token lookahead for separated
flag parameters. -/
def gccScanArgs (env : Env) : GccScanSt → List Str → GccScanSt
  | st, [] => st
  | st, cur :: rest => gccScanArgs env (gccScanStep env st cur rest.head?) rest

/-- PATH_MAX of the build logger. -/
def pathMax : Nat := 4096

/-- An empty colon-list element means the current directory. -/
def envTokenContent (tok : Str) : Str := if tok = [] then [46] else tok

/-- getPathsFromEnvVar (ldlogger-tool-gcc.c:167-211) over the split parts:
every part before a colon is skipped when longer than PATH_MAX-1,
otherwise contributes the flag and the part (or "." when empty); the final
part contributes unconditionally. -/
def pathsParts (flag : Str) : List Str → List Str
  | [] => []
  | [last] => [flag, envTokenContent last]
  | tok :: rest =>
    (if pathMax - 1 < tok.length then [] else [flag, envTokenContent tok])
      ++ pathsParts flag rest

/-- getPathsFromEnvVar for a set variable value. -/
def getPathsFromEnvVar (v flag : Str) : List Str :=
  pathsParts flag (colonSplit v)

/-- loggerVectorAddFrom at a position (ldlogger-util.c:314-369).  The C
code asserts pos ≤ size; beyond the end the model appends (the C code
would corrupt memory). -/
def insertAllAt (l : List Str) (pos : Nat) (xs : List Str) : List Str :=
  l.take pos ++ xs ++ l.drop pos

/-- Flags whose path argument transformSomePathsAbsolute rewrites
(ldlogger-tool-gcc.c:273-275), in source order — first prefix match wins. -/
def absFlags : List Str :=
  [[45, 73], [45, 105, 100, 105, 114, 97, 102, 116, 101, 114], [45, 105, 109, 117, 108, 116, 105, 108, 105, 98], [45, 105, 113, 117, 111, 116, 101],
   [45, 105, 115, 121, 115, 114, 111, 111, 116], [45, 105, 115, 121, 115, 116, 101, 109], [45, 105, 119, 105, 116, 104, 112, 114, 101, 102, 105, 120],
   [45, 105, 119, 105, 116, 104, 112, 114, 101, 102, 105, 120, 98, 101, 102, 111, 114, 101], [45, 115, 121, 115, 114, 111, 111, 116], [45, 45, 115, 121, 115, 114, 111, 111, 116]]

/-- First matching flag prefix of an argument. -/
def findAbsFlag (arg : Str) : Option Str :=
  absFlags.find? (fun f => f.isPrefixOf arg)

/-- One step of transformSomePathsAbsolute (ldlogger-tool-gcc.c:267-320).
An argument following a bare flag is replaced by its resolved form; an
attached path (optionally after =) is resolved in place.  When resolution
fails the C code uses an uninitialised buffer; the model keeps the
unresolved path. -/
def transformStep (env : Env) (st : List Str × Bool) (arg : Str) :
    List Str × Bool :=
  if st.2 then (st.1 ++ [(makeAbs0 env arg).getD arg], false)
  else
    match findAbsFlag arg with
    | none => (st.1 ++ [arg], false)
    | some flag =>
      let path := arg.drop flag.length
      if path = [] then (st.1 ++ [arg], true)
      else
        let hasEq := path.head? = some 61
        let p2 := if hasEq then path.drop 1 else path
        (st.1 ++ [flag ++ (if hasEq then [61] else []) ++ (makeAbs0 env p2).getD p2],
          false)

/-- transformSomePathsAbsolute (ldlogger-tool-gcc.c:267-320). -/
def transformSomePathsAbsolute (env : Env) (args : List Str) : List Str :=
  (args.foldl (transformStep env) ([], false)).1

/-- getResponseFile (ldlogger-tool-gcc.c:253-265): the first argument
beginning with @. -/
def getResponseFile (args : List Str) : Option Str :=
  args.find? (fun a => a.head? == some 64)

/-- Initial language from the tool basename (ldlogger-tool-gcc.c:371-377):
default C++, C on a C-compiler infix, C++ again winning on a C++ infix. -/
def gccInitLang (toolName : Str) : GccLang :=
  let l1 := if cCompilerNames.any (fun n => strstrB toolName n)
    then GccLang.langC else GccLang.langCpp
  if cppCompilerNames.any (fun n => strstrB toolName n)
    then GccLang.langCpp else l1

/-- arguments[0] (ldlogger-tool-gcc.c:362-368): an absolute program path
verbatim, otherwise the PATH lookup result, otherwise the bare name. -/
def gccArg0 (env : Env) (prog : Str) : Str :=
  if prog.head? = some 47 then prog
  else
    match env.pathLookup prog with
    | some full => full
    | none => prog

/-- The include-injection phase (ldlogger-tool-gcc.c:456-526): implicit
include directories at the -I cursor, CPATH at the -I cursor, and
CPLUS_INCLUDE_PATH or C_INCLUDE_PATH (by language) at the -isystem
cursor, with the cursor updates of the source. -/
def gccInject (env : Env) (st : GccScanSt) : GccScanSt :=
  let st :=
    if env.defDirs ≠ [] then
      { st with
        args := insertAllAt st.args st.lastInc env.defDirs,
        lastSysInc :=
          if st.lastInc < st.lastSysInc then st.lastSysInc + env.defDirs.length
          else st.lastSysInc,
        lastInc := st.lastInc + env.defDirs.length }
    else st
  let st :=
    match env.cpath with
    | none => st
    | some v =>
      let incs := getPathsFromEnvVar v [45, 73]
      if incs ≠ [] then
        { st with
          args := insertAllAt st.args st.lastInc incs,
          lastSysInc :=
            if st.lastInc < st.lastSysInc then st.lastSysInc + incs.length
            else st.lastSysInc,
          lastInc := st.lastInc + incs.length }
      else st
  let st :=
    if st.lang = .langCpp then
      match env.cplusIncludePath with
      | none => st
      | some v =>
        let incs := getPathsFromEnvVar v [45, 105, 115, 121, 115, 116, 101, 109]
        if incs ≠ [] then
          { st with args := insertAllAt st.args st.lastSysInc incs }
        else st
    else
      match env.cIncludePath with
      | none => st
      | some v =>
        let incs := getPathsFromEnvVar v [45, 105, 115, 121, 115, 116, 101, 109]
        if incs ≠ [] then
          { st with args := insertAllAt st.args st.lastSysInc incs }
        else st
  if env.absPathSet then
    { st with args := transformSomePathsAbsolute env st.args }
  else st

/-- The two source filters before commit (ldlogger-tool-gcc.c:528-543):
erase the output path from the sources, then, unless CC_LOGGER_KEEP_LINK
is the literal true, remove every object-extension source. -/
def gccFinalize (env : Env) (st : GccScanSt) : List Str :=
  let s1 := st.sources.erase st.output
  if env.keepLink then s1 else removeObjLoop (s1.length + 1) s1

/-- loggerGccParserCollectActions (ldlogger-tool-gcc.c:322-561). -/
def gccInitSt (env : Env) (prog : Str) : GccScanSt :=
  ⟨[gccArg0 env prog], 1, 1, gccInitLang (progBasename prog),
    fileInit env [46, 47, 95, 110, 111, 111, 98, 106], []⟩

/-- The scanned-and-injected state of one GCC parse. -/
def gccFullScan (env : Env) (prog : Str) (argv : List Str) : GccScanSt :=
  gccInject env (gccScanArgs env (gccInitSt env prog) (argv.drop 1))

def loggerGccParserCollectActions (env : Env) (prog : Str) (argv : List Str)
    (actions : List Action) : List Action × Int :=
  let st2 := gccFullScan env prog argv
  let fsources := gccFinalize env st2
  if fsources ≠ [] then (actions ++ [⟨st2.output, st2.args, fsources⟩], 1)
  else
    match getResponseFile st2.args with
    | some r => (actions ++ [⟨st2.output, st2.args, [r]⟩], 1)
    | none => (actions, 1)

/-- States of the javac argument scan (ldlogger-tool-javac.c:23-37). -/
inductive JavacState where
  | jNormal : JavacState
  | jInClassDir : JavacState
  | jInClassPath : JavacState
deriving DecidableEq

/-- ParserData of the javac scan (ldlogger-tool-javac.c:78-100). -/
structure JavacData where
  hasSourcePath : Bool
  state : JavacState
  commonArgs : List Str
  sources : List Str
  classdir : Str
deriving DecidableEq

/-- isspace test over the C locale. -/
def isSpaceB (b : Nat) : Bool := b == 32 || (9 ≤ b && b ≤ 13)

/-- Line normalisation of readArgumentsFromFile
(ldlogger-tool-javac.c:62-67): strip leading whitespace and quotes, cut at
the first remaining quote.  Note that an unquoted line keeps its trailing
newline. -/
def trimArgLine (l : Str) : Str :=
  (l.dropWhile (fun b => isSpaceB b || b == 34)).takeWhile (fun b => b != 34)

/-- processArg (ldlogger-tool-javac.c:192-262). -/
def processArg (env : Env) (d : JavacData) (arg : Str) : JavacData :=
  match d.state with
  | .jInClassDir =>
    let cd := (makeAbs0 env arg).getD arg
    let d2 := { d with classdir := cd, state := .jNormal }
    if cd ≠ [] then { d2 with commonArgs := d2.commonArgs ++ [cd] } else d2
  | .jInClassPath =>
    let r := env.resolveClassPath arg
    let d2 := { d with state := .jNormal }
    if r ≠ [] then { d2 with commonArgs := d2.commonArgs ++ [r] } else d2
  | .jNormal =>
    if arg = [45, 115, 111, 117, 114, 99, 101, 112, 97, 116, 104] then
      { d with hasSourcePath := true, commonArgs := d.commonArgs ++ [arg] }
    else if arg = [45, 100] then
      { d with state := .jInClassDir, commonArgs := d.commonArgs ++ [arg] }
    else if arg = [45, 99, 112] ∨ arg = [45, 99, 108, 97, 115, 115, 112, 97, 116, 104] then
      { d with state := .jInClassPath, commonArgs := d.commonArgs ++ [arg] }
    else
      match loggerGetFileExt arg with
      | some e =>
        if e = [106, 97, 118, 97] then
          match makeAbs0 env arg with
          | some p => { d with sources := addUnique d.sources p }
          | none => { d with commonArgs := d.commonArgs ++ [arg] }
        else { d with commonArgs := d.commonArgs ++ [arg] }
      | none =>
        if arg ≠ [] then { d with commonArgs := d.commonArgs ++ [arg] } else d

/-- Argument processing with one level of @file expansion
(ldlogger-tool-javac.c:282-303). -/
def javacExpandArg (env : Env) (d : JavacData) (arg : Str) : JavacData :=
  if arg.head? = some 64 then
    ((env.argsFile (arg.drop 1)).map trimArgLine).foldl (processArg env) d
  else processArg env d arg

/-- The javac scan over argv[1..] plus the -sourcepath fallback
(ldlogger-tool-javac.c:274-313). -/
def javacFold (env : Env) (prog : Str) (argv : List Str) : JavacData :=
  (argv.drop 1).foldl (javacExpandArg env) ⟨false, .jNormal, [prog], [], []⟩

def javacScan (env : Env) (prog : Str) (argv : List Str) : JavacData :=
  let d1 := javacFold env prog argv
  if !d1.hasSourcePath then
    match makeAbs0 env [46] with
    | some w =>
      { d1 with commonArgs := d1.commonArgs ++ [[45, 115, 111, 117, 114, 99, 101, 112, 97, 116, 104], w] }
    | none => d1
  else d1

/-- The output .class path of one emitted javac action
(ldlogger-tool-javac.c:330-345). -/
def javacOutputFile (d : JavacData) (src : Str) : Str :=
  if d.classdir ≠ [] then
    d.classdir ++ [47] ++ (loggerGetFileName src true).getD [] ++ [46, 99, 108, 97, 115, 115]
  else loggerGetFilePathWithoutExt src ++ [46, 99, 108, 97, 115, 115]

/-- One emitted javac action (ldlogger-tool-javac.c:315-349). -/
def mkJavacAction (env : Env) (d : JavacData) (src : Str) : Action :=
  ⟨fileInit env (javacOutputFile d src), d.commonArgs ++ [src], [src]⟩

/-- loggerJavacParserCollectActions (ldlogger-tool-javac.c:264-355). -/
def loggerJavacParserCollectActions (env : Env) (prog : Str) (argv : List Str)
    (actions : List Action) : List Action × Int :=
  let d := javacScan env prog argv
  (d.sources.foldl (fun acc src => acc ++ [mkJavacAction env d src]) actions, 1)

/-- loggerCollectActionsByProgName (ldlogger-tool.c:145-174).  The
turnLogging calls around the GCC parse mutate the process environment and
are modelled separately by `turnLogging`. -/
def loggerCollectActionsByProgName (env : Env) (prog : Str) (argv : List Str)
    (actions : List Action) : List Action × Int :=
  if matchToProgramList env.gccLike prog then
    loggerGccParserCollectActions env prog argv actions
  else if matchToProgramList env.javacLike prog then
    loggerJavacParserCollectActions env prog argv actions
  else (actions, 0)


/-- An environment with nothing set and every path resolution failing. -/
def envNone : Env :=
  ⟨false, false, [], none, none, none, none, none,
    fun _ => none, fun _ => none, id, fun _ => []⟩

/-- An environment with nothing set whose path resolver is the identity. -/
def envId : Env :=
  ⟨false, false, [], none, none, none, none, none,
    fun _ => none, fun p => some p, id, fun _ => []⟩

/-- Path canonicalisation that preserves file extensions (realpath does,
except through symbolic links whose name changes the extension). -/
def ExtPreserving (env : Env) : Prop :=
  ∀ p q, env.makeAbsFn p = some q → loggerGetFileExt q = loggerGetFileExt p

/-- Modelled from the spec: the claim's matcher — an element with no slash
matches as an infix of the basename, an element with a slash as a suffix
of the full path. -/
def specMatcherHolds (p tok : Str) : Bool :=
  if tok.contains 47 then tok.isSuffixOf p else strstrB (progBasename p) tok

/-- Modelled from the spec: some element of the colon-separated matcher
list matches. -/
def specMatchList (v p : Str) : Bool :=
  (colonSplit v).any (specMatcherHolds p)

/-- Extension bytes "java". -/
def javaExt : Str := [106, 97, 118, 97]

/-- All collected javac sources carry the extension java. -/
def JavaExtInv (d : JavacData) : Prop :=
  ∀ s ∈ d.sources, loggerGetFileExt s = some javaExt

/-! ## Theorems -/

theorem hexLow_ge (b : Nat) : 48 ≤ hexLow b := by
  unfold hexLow; split <;> omega

theorem hexLow_le (b : Nat) : hexLow b ≤ 70 := by
  unfold hexLow; split <;> omega

theorem hexHi_cases (b : Nat) : hexHi b = 48 ∨ hexHi b = 49 := by
  unfold hexHi; split <;> simp

theorem isHexDigitB_hexHi (b : Nat) : isHexDigitB (hexHi b) = true := by
  rcases hexHi_cases b with h | h <;> simp [h, isHexDigitB]

theorem isHexDigitB_hexLow (b : Nat) : isHexDigitB (hexLow b) = true := by
  have h1 := hexLow_ge b
  have h2 := hexLow_le b
  have h3 : hexLow b ≤ 57 ∨ 65 ≤ hexLow b := by
    unfold hexLow; split <;> omega
  simp only [isHexDigitB, Bool.or_eq_true, Bool.and_eq_true, decide_eq_true_eq]
  omega

theorem hexVal_hexLow (b : Nat) : hexVal (hexLow b) = b % 16 := by
  unfold hexVal hexLow
  split_ifs <;> omega

theorem hexVal_hexHi (b : Nat) (h : b < 32) : hexVal (hexHi b) = b / 16 := by
  unfold hexVal hexHi
  split_ifs <;> omega

theorem jsonUnescape_nil : jsonUnescape [] = some [] := rfl

theorem jsonUnescape_esc (c : Nat) (r : Str) (h : c ∈ jsonEscSet) :
    jsonUnescape (92 :: c :: r) =
      (jsonUnescape r).map (fun u => jsonUnescChar c :: u) := by
  rw [jsonUnescape.eq_def]
  simp [h]

theorem jsonUnescape_raw (b : Nat) (r : Str) (h92 : b ≠ 92)
    (h : ¬ (b < 32 ∨ b = 34)) :
    jsonUnescape (b :: r) = (jsonUnescape r).map (fun u => b :: u) := by
  rw [jsonUnescape.eq_def]
  simp [h92, h]

theorem shellUnescape_nil : shellUnescape [] = some [] := rfl

theorem shellUnescape_esc (c : Nat) (r : Str) (h : c ≠ 120) :
    shellUnescape (92 :: c :: r) =
      (shellUnescape r).map (fun u => shellUnescChar c :: u) := by
  rw [shellUnescape.eq_def]
  simp [h]

theorem shellUnescape_hex (h1 h2 : Nat) (r : Str)
    (hh1 : isHexDigitB h1 = true) (hh2 : isHexDigitB h2 = true) :
    shellUnescape (92 :: 120 :: h1 :: h2 :: r) =
      (shellUnescape r).map (fun u => (hexVal h1 * 16 + hexVal h2) :: u) := by
  rw [shellUnescape.eq_def]
  simp [hh1, hh2]

theorem shellUnescape_raw (b : Nat) (r : Str) (h92 : b ≠ 92) :
    shellUnescape (b :: r) = (shellUnescape r).map (fun u => b :: u) := by
  rw [shellUnescape.eq_def]
  simp [h92]

theorem shellSplitWords_nil : shellSplitWords [] = some [[]] := rfl

theorem shellSplitWords_space (r : Str) :
    shellSplitWords (32 :: r) = (shellSplitWords r).map (fun ws => [] :: ws) := by
  rw [shellSplitWords.eq_def]
  simp

theorem shellSplitWords_esc (c : Nat) (r : Str) (h : c ≠ 120) :
    shellSplitWords (92 :: c :: r) =
      (shellSplitWords r).map (consHead (shellUnescChar c)) := by
  rw [shellSplitWords.eq_def]
  simp [h]

theorem shellSplitWords_hex (h1 h2 : Nat) (r : Str)
    (hh1 : isHexDigitB h1 = true) (hh2 : isHexDigitB h2 = true) :
    shellSplitWords (92 :: 120 :: h1 :: h2 :: r) =
      (shellSplitWords r).map (consHead (hexVal h1 * 16 + hexVal h2)) := by
  rw [shellSplitWords.eq_def]
  simp [hh1, hh2]

theorem shellSplitWords_raw (b : Nat) (r : Str) (h32 : b ≠ 32) (h92 : b ≠ 92) :
    shellSplitWords (b :: r) = (shellSplitWords r).map (consHead b) := by
  rw [shellSplitWords.eq_def]
  simp [h32, h92]

theorem hex_decode (b : Nat) (h : b < 32) :
    hexVal (hexHi b) * 16 + hexVal (hexLow b) = b := by
  rw [hexVal_hexHi b h, hexVal_hexLow]
  omega

theorem jsonUnescape_escByte (b : Nat) (t : Str) :
    jsonUnescape (escByte b ++ t) =
      (jsonUnescape t).map (fun u => jsonChunk b ++ u) := by
  by_cases h1 : b = 7
  · subst h1
    cases ht : jsonUnescape t <;>
      simp [escByte, jsonChunk, jsonUnescape_esc, jsonUnescape_raw,
        jsonEscSet, jsonUnescChar, ht]
  by_cases h2 : b = 27
  · subst h2
    cases ht : jsonUnescape t <;>
      simp [escByte, jsonChunk, jsonUnescape_esc, jsonUnescape_raw,
        jsonEscSet, jsonUnescChar, ht]
  by_cases h3 : b = 9
  · subst h3
    cases ht : jsonUnescape t <;>
      simp [escByte, jsonChunk, jsonUnescape_esc, jsonUnescape_raw,
        jsonEscSet, jsonUnescChar, ht]
  by_cases h4 : b = 8
  · subst h4
    cases ht : jsonUnescape t <;>
      simp [escByte, jsonChunk, jsonUnescape_esc, jsonUnescape_raw,
        jsonEscSet, jsonUnescChar, ht]
  by_cases h5 : b = 12
  · subst h5
    cases ht : jsonUnescape t <;>
      simp [escByte, jsonChunk, jsonUnescape_esc, jsonUnescape_raw,
        jsonEscSet, jsonUnescChar, ht]
  by_cases h6 : b = 13
  · subst h6
    cases ht : jsonUnescape t <;>
      simp [escByte, jsonChunk, jsonUnescape_esc, jsonUnescape_raw,
        jsonEscSet, jsonUnescChar, ht]
  by_cases h7 : b = 11
  · subst h7
    cases ht : jsonUnescape t <;>
      simp [escByte, jsonChunk, jsonUnescape_esc, jsonUnescape_raw,
        jsonEscSet, jsonUnescChar, ht]
  by_cases h8 : b = 10
  · subst h8
    cases ht : jsonUnescape t <;>
      simp [escByte, jsonChunk, jsonUnescape_esc, jsonUnescape_raw,
        jsonEscSet, jsonUnescChar, ht]
  by_cases h9 : b = 32
  · subst h9
    cases ht : jsonUnescape t <;>
      simp [escByte, jsonChunk, jsonUnescape_esc, jsonUnescape_raw,
        jsonEscSet, jsonUnescChar, ht]
  by_cases h10 : b = 92
  · subst h10
    cases ht : jsonUnescape t <;>
      simp [escByte, jsonChunk, jsonUnescape_esc, jsonUnescape_raw,
        jsonEscSet, jsonUnescChar, ht]
  by_cases h11 : b = 34
  · subst h11
    cases ht : jsonUnescape t <;>
      simp [escByte, jsonChunk, jsonUnescape_esc, jsonUnescape_raw,
        jsonEscSet, jsonUnescChar, ht]
  by_cases h12 : b < 32
  · have e1 : escByte b = [92, 92, 120, hexHi b, hexLow b] := by
      simp [escByte, h1, h2, h3, h4, h5, h6, h7, h8, h9, h10, h11, h12]
    have e2 : jsonChunk b = [92, 120, hexHi b, hexLow b] := by
      simp [jsonChunk, h1, h2, h3, h4, h5, h6, h7, h8, h9, h10, h11, h12]
    have hlo1 : hexLow b ≠ 92 := by have := hexLow_le b; omega
    have hlo2 : ¬ (hexLow b < 32 ∨ hexLow b = 34) := by
      have := hexLow_ge b; have := hexLow_le b; omega
    rw [e1, e2]
    rcases hexHi_cases b with hh | hh <;> rw [hh] <;>
      cases ht : jsonUnescape t <;>
        simp [jsonUnescape_esc, jsonUnescape_raw, jsonEscSet, jsonUnescChar,
          hlo1, hlo2, ht]
  · have e1 : escByte b = [b] := by
      simp [escByte, h1, h2, h3, h4, h5, h6, h7, h8, h9, h10, h11, h12]
    have e2 : jsonChunk b = [b] := by
      simp [jsonChunk, h1, h2, h3, h4, h5, h6, h7, h8, h9, h10, h11, h12]
    have hb : ¬ (b < 32 ∨ b = 34) := by tauto
    rw [e1, e2]
    cases ht : jsonUnescape t <;>
      simp [jsonUnescape_raw, h10, hb, ht]

theorem jsonUnescape_shellEscape (s t : Str) :
    jsonUnescape (shellEscapeStr s ++ t) =
      (jsonUnescape t).map (fun u => jsonEsc s ++ u) := by
  induction s with
  | nil => cases ht : jsonUnescape t <;> simp [shellEscapeStr, jsonEsc, ht]
  | cons b r ih =>
    rw [shellEscapeStr, List.append_assoc, jsonUnescape_escByte, ih]
    cases ht : jsonUnescape t <;> simp [jsonEsc, ht]

theorem shellUnescape_jsonChunk (b : Nat) (t : Str) :
    shellUnescape (jsonChunk b ++ t) =
      (shellUnescape t).map (fun u => b :: u) := by
  by_cases h1 : b = 7
  · subst h1
    cases ht : shellUnescape t <;>
      simp [jsonChunk, shellUnescape_esc, shellUnescape_raw, shellUnescChar, ht]
  by_cases h2 : b = 27
  · subst h2
    cases ht : shellUnescape t <;>
      simp [jsonChunk, shellUnescape_esc, shellUnescape_raw, shellUnescChar, ht]
  by_cases h3 : b = 9
  · subst h3
    cases ht : shellUnescape t <;>
      simp [jsonChunk, shellUnescape_esc, shellUnescape_raw, shellUnescChar, ht]
  by_cases h4 : b = 8
  · subst h4
    cases ht : shellUnescape t <;>
      simp [jsonChunk, shellUnescape_esc, shellUnescape_raw, shellUnescChar, ht]
  by_cases h5 : b = 12
  · subst h5
    cases ht : shellUnescape t <;>
      simp [jsonChunk, shellUnescape_esc, shellUnescape_raw, shellUnescChar, ht]
  by_cases h6 : b = 13
  · subst h6
    cases ht : shellUnescape t <;>
      simp [jsonChunk, shellUnescape_esc, shellUnescape_raw, shellUnescChar, ht]
  by_cases h7 : b = 11
  · subst h7
    cases ht : shellUnescape t <;>
      simp [jsonChunk, shellUnescape_esc, shellUnescape_raw, shellUnescChar, ht]
  by_cases h8 : b = 10
  · subst h8
    cases ht : shellUnescape t <;>
      simp [jsonChunk, shellUnescape_esc, shellUnescape_raw, shellUnescChar, ht]
  by_cases h9 : b = 32
  · subst h9
    cases ht : shellUnescape t <;>
      simp [jsonChunk, shellUnescape_esc, shellUnescape_raw, shellUnescChar, ht]
  by_cases h10 : b = 92
  · subst h10
    cases ht : shellUnescape t <;>
      simp [jsonChunk, shellUnescape_esc, shellUnescape_raw, shellUnescChar, ht]
  by_cases h11 : b = 34
  · subst h11
    cases ht : shellUnescape t <;>
      simp [jsonChunk, shellUnescape_esc, shellUnescape_raw, shellUnescChar, ht]
  by_cases h12 : b < 32
  · have e2 : jsonChunk b = [92, 120, hexHi b, hexLow b] := by
      simp [jsonChunk, h1, h2, h3, h4, h5, h6, h7, h8, h9, h10, h11, h12]
    rw [e2]
    simp only [List.cons_append, List.nil_append]
    rw [shellUnescape_hex (hexHi b) (hexLow b) t (isHexDigitB_hexHi b)
      (isHexDigitB_hexLow b), hex_decode b h12]
  · have e2 : jsonChunk b = [b] := by
      simp [jsonChunk, h1, h2, h3, h4, h5, h6, h7, h8, h9, h10, h11, h12]
    rw [e2]
    simp only [List.cons_append, List.nil_append]
    rw [shellUnescape_raw b t h10]

theorem shellUnescape_jsonEsc (s t : Str) :
    shellUnescape (jsonEsc s ++ t) =
      (shellUnescape t).map (fun u => s ++ u) := by
  induction s with
  | nil => cases ht : shellUnescape t <;> simp [jsonEsc, ht]
  | cons b r ih =>
    rw [jsonEsc, List.append_assoc, shellUnescape_jsonChunk, ih]
    cases ht : shellUnescape t <;> simp [ht]

theorem shellSplitWords_jsonChunk (b : Nat) (t : Str) :
    shellSplitWords (jsonChunk b ++ t) =
      (shellSplitWords t).map (consHead b) := by
  by_cases h1 : b = 7
  · subst h1
    cases ht : shellSplitWords t <;>
      simp [jsonChunk, shellSplitWords_esc, shellSplitWords_raw, shellUnescChar, ht]
  by_cases h2 : b = 27
  · subst h2
    cases ht : shellSplitWords t <;>
      simp [jsonChunk, shellSplitWords_esc, shellSplitWords_raw, shellUnescChar, ht]
  by_cases h3 : b = 9
  · subst h3
    cases ht : shellSplitWords t <;>
      simp [jsonChunk, shellSplitWords_esc, shellSplitWords_raw, shellUnescChar, ht]
  by_cases h4 : b = 8
  · subst h4
    cases ht : shellSplitWords t <;>
      simp [jsonChunk, shellSplitWords_esc, shellSplitWords_raw, shellUnescChar, ht]
  by_cases h5 : b = 12
  · subst h5
    cases ht : shellSplitWords t <;>
      simp [jsonChunk, shellSplitWords_esc, shellSplitWords_raw, shellUnescChar, ht]
  by_cases h6 : b = 13
  · subst h6
    cases ht : shellSplitWords t <;>
      simp [jsonChunk, shellSplitWords_esc, shellSplitWords_raw, shellUnescChar, ht]
  by_cases h7 : b = 11
  · subst h7
    cases ht : shellSplitWords t <;>
      simp [jsonChunk, shellSplitWords_esc, shellSplitWords_raw, shellUnescChar, ht]
  by_cases h8 : b = 10
  · subst h8
    cases ht : shellSplitWords t <;>
      simp [jsonChunk, shellSplitWords_esc, shellSplitWords_raw, shellUnescChar, ht]
  by_cases h9 : b = 32
  · subst h9
    cases ht : shellSplitWords t <;>
      simp [jsonChunk, shellSplitWords_esc, shellSplitWords_raw, shellUnescChar, ht]
  by_cases h10 : b = 92
  · subst h10
    cases ht : shellSplitWords t <;>
      simp [jsonChunk, shellSplitWords_esc, shellSplitWords_raw, shellUnescChar, ht]
  by_cases h11 : b = 34
  · subst h11
    cases ht : shellSplitWords t <;>
      simp [jsonChunk, shellSplitWords_esc, shellSplitWords_raw, shellUnescChar, ht]
  by_cases h12 : b < 32
  · have e2 : jsonChunk b = [92, 120, hexHi b, hexLow b] := by
      simp [jsonChunk, h1, h2, h3, h4, h5, h6, h7, h8, h9, h10, h11, h12]
    rw [e2]
    simp only [List.cons_append, List.nil_append]
    rw [shellSplitWords_hex (hexHi b) (hexLow b) t (isHexDigitB_hexHi b)
      (isHexDigitB_hexLow b), hex_decode b h12]
  · have e2 : jsonChunk b = [b] := by
      simp [jsonChunk, h1, h2, h3, h4, h5, h6, h7, h8, h9, h10, h11, h12]
    rw [e2]
    simp only [List.cons_append, List.nil_append]
    rw [shellSplitWords_raw b t h9 h10]

theorem consHead_appHead (b : Nat) (s : Str) (ws : List Str) :
    consHead b (appHead s ws) = appHead (b :: s) ws := by
  cases ws <;> simp [consHead, appHead]

theorem shellSplitWords_jsonEsc (s t : Str) (hne : shellSplitWords t ≠ some []) :
    shellSplitWords (jsonEsc s ++ t) =
      (shellSplitWords t).map (appHead s) := by
  induction s with
  | nil =>
    cases ht : shellSplitWords t with
    | none => simp [jsonEsc, ht]
    | some ws =>
      cases ws with
      | nil => exact absurd ht hne
      | cons w ws2 => simp [jsonEsc, ht, appHead]
  | cons b r ih =>
    rw [jsonEsc, List.append_assoc, shellSplitWords_jsonChunk, ih]
    cases ht : shellSplitWords t <;> simp [ht, consHead_appHead]

theorem jsonUnescape_escJoinRest (args : List Str) :
    jsonUnescape (escJoinRest args) = some (jsonRest args) := by
  induction args with
  | nil => simp [escJoinRest, jsonRest, jsonUnescape_nil]
  | cons a r ih =>
    rw [escJoinRest, List.cons_append,
      jsonUnescape_raw 32 _ (by omega) (by omega),
      jsonUnescape_shellEscape, ih]
    simp [jsonRest]

theorem shellSplitWords_jsonRest (args : List Str) :
    shellSplitWords (jsonRest args) = some ([] :: args) := by
  induction args with
  | nil => simp [jsonRest, shellSplitWords_nil]
  | cons a r ih =>
    rw [jsonRest, List.cons_append, shellSplitWords_space,
      shellSplitWords_jsonEsc a (jsonRest r) (by rw [ih]; simp), ih]
    simp [appHead]

/-- C2: for every byte sequence, JSON-string decoding followed by shell
unescaping inverts the combined escaper exactly, including control bytes;
and for a non-empty argument vector, JSON-string decoding of the
space-joined escaped command followed by shell word splitting reproduces
the original argument vector. -/
theorem shellEscape_roundTrip :
    (∀ s : Str, OkBytes s → shellJsonDecode (shellEscapeStr s) = some s) ∧
    (∀ args : List Str, args ≠ [] → (∀ a ∈ args, OkBytes a) →
      shellJsonSplit (createJsonCommandString args) = some args) := by
  constructor
  · intro s _
    unfold shellJsonDecode
    have h := jsonUnescape_shellEscape s []
    simp only [List.append_nil] at h
    rw [h, jsonUnescape_nil]
    simp only [Option.map_some', Option.some_bind]
    have h2 := shellUnescape_jsonEsc s []
    simp only [List.append_nil] at h2
    simp only [List.append_nil]
    rw [h2, shellUnescape_nil]
    simp
  · intro args hne _
    unfold shellJsonSplit
    match args with
    | a :: r =>
      rw [createJsonCommandString, jsonUnescape_shellEscape,
        jsonUnescape_escJoinRest]
      simp only [Option.map_some', Option.some_bind]
      rw [shellSplitWords_jsonEsc a (jsonRest r)
        (by rw [shellSplitWords_jsonRest]; simp), shellSplitWords_jsonRest]
      simp [appHead]

/-- Witness for C2 at concrete inputs covering a control byte, a quote, a
backslash, a space and a high byte. -/
theorem shellEscape_roundTrip_witness :
    shellJsonDecode (shellEscapeStr [9, 7, 1, 27, 34, 92, 32, 200]) =
      some [9, 7, 1, 27, 34, 92, 32, 200] ∧
    shellJsonSplit (createJsonCommandString [str "gcc", str "-c", [9, 1]]) =
      some [str "gcc", str "-c", [9, 1]] := by
  constructor
  · exact shellEscape_roundTrip.1 [9, 7, 1, 27, 34, 92, 32, 200] (by decide)
  · exact shellEscape_roundTrip.2 [str "gcc", str "-c", [9, 1]] (by decide) (by decide)


/-- C3 (code bug): predictEscapedSize is not the exact written size plus
one.  The strchr class string contains the four characters 0, x, 1, B
instead of the ESC byte 0x1B, so the byte 48 is charged 3 although the
escaper copies it as a single byte, and ESC is charged 5 although the
escaper writes three bytes. -/
theorem predictEscapedSize_code_bug :
    (predictEscapedSize (str "0") = 4 ∧ (shellEscapeStr (str "0")).length + 1 = 2) ∧
    (predictEscapedSize [27] = 6 ∧ (shellEscapeStr [27]).length + 1 = 4) := by
  decide

theorem jsonSafe_valSafe (s : Str) (h : JsonSafe s) : valSafeB s = true := by
  unfold valSafeB
  induction s with
  | nil => rfl
  | cons b r ih =>
    obtain ⟨hb1, hb2, hb3⟩ := h b (by simp)
    have hr : JsonSafe r := fun x hx => h x (by simp [hx])
    simp only [valSafeAux]
    rw [if_neg hb3, if_neg hb2, if_pos hb1]
    exact ih hr

theorem valSafeAux_escByte (b : Nat) (t : Str) :
    valSafeAux (escByte b ++ t) false = valSafeAux t false := by
  by_cases h1 : b = 7
  · subst h1; simp [escByte, valSafeAux, jsonEscOkB]
  by_cases h2 : b = 27
  · subst h2; simp [escByte, valSafeAux, jsonEscOkB]
  by_cases h3 : b = 9
  · subst h3; simp [escByte, valSafeAux, jsonEscOkB]
  by_cases h4 : b = 8
  · subst h4; simp [escByte, valSafeAux, jsonEscOkB]
  by_cases h5 : b = 12
  · subst h5; simp [escByte, valSafeAux, jsonEscOkB]
  by_cases h6 : b = 13
  · subst h6; simp [escByte, valSafeAux, jsonEscOkB]
  by_cases h7 : b = 11
  · subst h7; simp [escByte, valSafeAux, jsonEscOkB]
  by_cases h8 : b = 10
  · subst h8; simp [escByte, valSafeAux, jsonEscOkB]
  by_cases h9 : b = 32
  · subst h9; simp [escByte, valSafeAux, jsonEscOkB]
  by_cases h10 : b = 92
  · subst h10; simp [escByte, valSafeAux, jsonEscOkB]
  by_cases h11 : b = 34
  · subst h11; simp [escByte, valSafeAux, jsonEscOkB]
  by_cases h12 : b < 32
  · have e1 : escByte b = [92, 92, 120, hexHi b, hexLow b] := by
      simp [escByte, h1, h2, h3, h4, h5, h6, h7, h8, h9, h10, h11, h12]
    have hlo1 : hexLow b ≠ 92 := by have := hexLow_le b; omega
    have hlo2 : hexLow b ≠ 34 := by have := hexLow_ge b; omega
    have hlo3 : 32 ≤ hexLow b := by have := hexLow_ge b; omega
    rw [e1]
    rcases hexHi_cases b with hh | hh <;> rw [hh] <;>
      simp [valSafeAux, jsonEscOkB, hlo1, hlo2, hlo3]
  · have e1 : escByte b = [b] := by
      simp [escByte, h1, h2, h3, h4, h5, h6, h7, h8, h9, h10, h11, h12]
    have hb : 32 ≤ b := by omega
    rw [e1]
    simp [valSafeAux, h10, h11, hb]

theorem valSafeAux_shellEscape (s t : Str) :
    valSafeAux (shellEscapeStr s ++ t) false = valSafeAux t false := by
  induction s with
  | nil => simp [shellEscapeStr]
  | cons b r ih =>
    rw [shellEscapeStr, List.append_assoc, valSafeAux_escByte, ih]

theorem valSafeAux_escJoinRest (args : List Str) :
    valSafeAux (escJoinRest args) false = true := by
  induction args with
  | nil => rfl
  | cons a r ih =>
    rw [escJoinRest]
    have h : ((32 :: shellEscapeStr a) ++ escJoinRest r)
        = 32 :: (shellEscapeStr a ++ escJoinRest r) := by simp
    rw [h]
    simp only [valSafeAux]
    rw [if_neg (by omega : ¬ (32 : Nat) = 92), if_neg (by omega : ¬ (32 : Nat) = 34),
      if_pos (by omega : 32 ≤ (32 : Nat))]
    rw [valSafeAux_shellEscape]
    exact ih

theorem valSafe_command (args : List Str) :
    valSafeB (createJsonCommandString args) = true := by
  cases args with
  | nil => rfl
  | cons a r =>
    unfold valSafeB createJsonCommandString
    rw [valSafeAux_shellEscape]
    exact valSafeAux_escJoinRest r

theorem val_run (v : Str) : ∀ (p : Bool) (k : Str) (ks : List Str)
    (os : List (List Str)), valSafeAux v p = true →
    List.foldl jsonStep ⟨cond p .jValEsc .jVal, k, ks, os⟩ v
      = ⟨.jVal, k, ks, os⟩ := by
  induction v with
  | nil =>
    intro p k ks os h
    cases p with
    | false => rfl
    | true => simp [valSafeAux] at h
  | cons b r ih =>
    intro p k ks os h
    cases p with
    | true =>
      simp only [valSafeAux, Bool.and_eq_true] at h
      show List.foldl jsonStep ⟨.jValEsc, k, ks, os⟩ (b :: r) = ⟨.jVal, k, ks, os⟩
      rw [List.foldl_cons]
      have hstep : jsonStep ⟨.jValEsc, k, ks, os⟩ b = ⟨.jVal, k, ks, os⟩ := by
        simp [jsonStep, h.1]
      rw [hstep]
      have h3 := ih false k ks os h.2
      simpa using h3
    | false =>
      show List.foldl jsonStep ⟨.jVal, k, ks, os⟩ (b :: r) = ⟨.jVal, k, ks, os⟩
      rw [List.foldl_cons]
      by_cases h92 : b = 92
      · subst h92
        have h2 : valSafeAux r true = true := by simpa [valSafeAux] using h
        have hstep : jsonStep ⟨.jVal, k, ks, os⟩ 92 = ⟨.jValEsc, k, ks, os⟩ := by
          simp [jsonStep]
        rw [hstep]
        have h3 := ih true k ks os h2
        simpa using h3
      · by_cases h34 : b = 34
        · subst h34
          simp [valSafeAux] at h
        · rcases Nat.lt_or_ge b 32 with hb | hb
          · exfalso
            simp only [valSafeAux] at h
            rw [if_neg h92, if_neg h34, if_neg (by omega : ¬ 32 ≤ b)] at h
            simp at h
          · have h2 : valSafeAux r false = true := by
              simp only [valSafeAux] at h
              rwa [if_neg h92, if_neg h34, if_pos hb] at h
            have hstep : jsonStep ⟨.jVal, k, ks, os⟩ b = ⟨.jVal, k, ks, os⟩ := by
              simp [jsonStep, h34, h92, hb]
            rw [hstep]
            have h3 := ih false k ks os h2
            simpa using h3

theorem val_run_false (v : Str) (k : Str) (ks : List Str)
    (os : List (List Str)) (h : valSafeB v = true) :
    List.foldl jsonStep ⟨.jVal, k, ks, os⟩ v = ⟨.jVal, k, ks, os⟩ := by
  have h2 := val_run v false k ks os h
  simpa using h2

set_option maxHeartbeats 2000000 in
theorem seg1_run (allow : Bool) (k : Str) (ks : List Str)
    (os : List (List Str)) :
    List.foldl jsonStep ⟨.jElem allow, k, ks, os⟩ entryPre1
      = ⟨.jVal, dirKey, [dirKey], os⟩ := rfl

set_option maxHeartbeats 2000000 in
theorem seg2_run (k : Str) (ks : List Str) (os : List (List Str)) :
    List.foldl jsonStep ⟨.jVal, k, ks, os⟩ entryPre2
      = ⟨.jVal, cmdKey, ks ++ [cmdKey], os⟩ := rfl

set_option maxHeartbeats 2000000 in
theorem seg3_run (k : Str) (ks : List Str) (os : List (List Str)) :
    List.foldl jsonStep ⟨.jVal, k, ks, os⟩ entryPre3
      = ⟨.jVal, fileKey, ks ++ [fileKey], os⟩ := rfl

set_option maxHeartbeats 2000000 in
theorem segPost_run (k : Str) (ks : List Str) (os : List (List Str)) :
    List.foldl jsonStep ⟨.jVal, k, ks, os⟩ entryPost
      = ⟨.jAfterElem, k, [], os ++ [ks]⟩ := rfl

set_option maxHeartbeats 2000000 in
theorem sep_run (k : Str) (ks : List Str) (os : List (List Str)) :
    List.foldl jsonStep ⟨.jAfterElem, k, ks, os⟩ sepBytes
      = ⟨.jElem false, k, ks, os⟩ := rfl

set_option maxHeartbeats 2000000 in
theorem close_run (k : Str) (ks : List Str) (os : List (List Str)) :
    List.foldl jsonStep ⟨.jAfterElem, k, ks, os⟩ [93]
      = ⟨.jDone, k, ks, os⟩ := rfl

theorem entry_run (allow : Bool) (k : Str) (ks : List Str)
    (os : List (List Str)) (wd cmd src : Str)
    (hwd : valSafeB wd = true) (hcmd : valSafeB cmd = true)
    (hsrc : valSafeB src = true) :
    List.foldl jsonStep ⟨.jElem allow, k, ks, os⟩ (entryBytes wd cmd src)
      = ⟨.jAfterElem, fileKey, [], os ++ [keysTriple]⟩ := by
  unfold entryBytes
  simp only [List.foldl_append]
  rw [seg1_run, val_run_false wd dirKey [dirKey] os hwd, seg2_run,
    val_run_false cmd cmdKey ([dirKey] ++ [cmdKey]) os hcmd, seg3_run,
    val_run_false src fileKey (([dirKey] ++ [cmdKey]) ++ [fileKey]) os hsrc,
    segPost_run]
  simp [keysTriple]

theorem tail_run (es : List (Str × Str × Str)) :
    ∀ (k : Str) (ks : List Str) (os : List (List Str)),
    (∀ e ∈ es, valSafeB e.1 = true ∧ valSafeB e.2.1 = true ∧ valSafeB e.2.2 = true) →
    ∃ k2 ks2, List.foldl jsonStep ⟨.jAfterElem, k, ks, os⟩ (entriesTail es)
      = ⟨.jAfterElem, k2, ks2, os ++ List.replicate es.length keysTriple⟩ := by
  induction es with
  | nil =>
    intro k ks os _
    exact ⟨k, ks, by simp [entriesTail]⟩
  | cons e es2 ih =>
    intro k ks os h
    have he := h e (by simp)
    have hes : ∀ x ∈ es2, valSafeB x.1 = true ∧ valSafeB x.2.1 = true ∧
        valSafeB x.2.2 = true := fun x hx => h x (by simp [hx])
    rw [entriesTail]
    simp only [List.foldl_append]
    rw [sep_run, entry_run false k ks os e.1 e.2.1 e.2.2 he.1 he.2.1 he.2.2]
    obtain ⟨k2, ks2, h2⟩ := ih fileKey [] (os ++ [keysTriple]) hes
    refine ⟨k2, ks2, ?_⟩
    rw [h2]
    simp [List.replicate_succ]

theorem jsonScan_wrapDb (es : List (Str × Str × Str))
    (h : ∀ e ∈ es, valSafeB e.1 = true ∧ valSafeB e.2.1 = true ∧
      valSafeB e.2.2 = true) :
    jsonScan (wrapDb es) = some (List.replicate es.length keysTriple) := by
  cases es with
  | nil => rfl
  | cons e es2 =>
    have he := h e (by simp)
    have hes : ∀ x ∈ es2, valSafeB x.1 = true ∧ valSafeB x.2.1 = true ∧
        valSafeB x.2.2 = true := fun x hx => h x (by simp [hx])
    unfold jsonScan wrapDb
    rw [entriesBlock]
    simp only [List.foldl_append]
    have h0 : List.foldl jsonStep jsonInit [91, 10] = ⟨.jElem true, [], [], []⟩ := rfl
    rw [h0, entry_run true [] [] [] e.1 e.2.1 e.2.2 he.1 he.2.1 he.2.2]
    obtain ⟨k2, ks2, h2⟩ := tail_run es2 fileKey [] ([] ++ [keysTriple]) hes
    rw [h2, close_run]
    simp [List.replicate_succ]


theorem entriesTail_append (xs ys : List (Str × Str × Str)) :
    entriesTail (xs ++ ys) = entriesTail xs ++ entriesTail ys := by
  induction xs with
  | nil => simp [entriesTail]
  | cons x xs2 ih => simp [entriesTail, ih]

theorem entriesBlock_append_ne (xs ys : List (Str × Str × Str)) (h : xs ≠ []) :
    entriesBlock (xs ++ ys) = entriesBlock xs ++ entriesTail ys := by
  cases xs with
  | nil => exact absurd rfl h
  | cons x xs2 => simp [entriesBlock, entriesTail_append]

theorem renderFrom_append (c : Nat) (xs ys : List (Str × Str × Str)) :
    renderFrom c (xs ++ ys) = renderFrom c xs ++ renderFrom (c + xs.length) ys := by
  unfold renderFrom
  by_cases hc : c = 0
  · subst hc
    cases xs with
    | nil => simp [entriesBlock, entriesTail]
    | cons x xs2 =>
      have hx : x :: xs2 ≠ [] := by simp
      rw [entriesBlock_append_ne (x :: xs2) ys hx]
      simp
  · have h2 : c + xs.length ≠ 0 := by omega
    simp [hc, h2, entriesTail_append]

theorem writeOneSource_eq (wd cmd : Str) (acc : Str × Nat) (s : Str) :
    writeOneSource wd cmd acc s
      = (acc.1 ++ renderFrom acc.2 [(wd, cmd, s)], acc.2 + 1) := by
  unfold writeOneSource renderFrom
  by_cases hc : acc.2 = 0
  · simp [hc, entriesBlock, entriesTail]
  · have h1 : acc.2 + 1 > 1 := by omega
    simp [hc, h1, entriesBlock, entriesTail]

theorem writeSrcs_fold (srcs : List Str) : ∀ (wd cmd acc : Str) (c : Nat),
    List.foldl (writeOneSource wd cmd) (acc, c) srcs
      = (acc ++ renderFrom c (srcs.map (fun s => (wd, cmd, s))), c + srcs.length) := by
  induction srcs with
  | nil =>
    intro wd cmd acc c
    simp [renderFrom, entriesBlock, entriesTail]
  | cons s ss ih =>
    intro wd cmd acc c
    rw [List.foldl_cons, writeOneSource_eq, ih]
    have h := renderFrom_append c [(wd, cmd, s)] (ss.map (fun s2 => (wd, cmd, s2)))
    simp only [List.singleton_append, List.length_singleton] at h
    simp only [List.map_cons]
    rw [h]
    simp [List.append_assoc]
    omega

theorem writeAction_eq (wd : Str) (a : Action) (acc : Str × Nat) :
    writeAction wd a acc
      = (acc.1 ++ renderFrom acc.2 (actionEntries wd a),
         acc.2 + (actionEntries wd a).length) := by
  cases hargs : a.arguments with
  | nil =>
    simp [writeAction, hargs, actionEntries, renderFrom, entriesBlock, entriesTail]
  | cons a0 as =>
    have e1 : writeAction wd a acc
        = a.sources.foldl
            (writeOneSource wd (createJsonCommandString (a0 :: as))) acc := by
      unfold writeAction
      rw [hargs]
    have e2 : actionEntries wd a
        = a.sources.map
            (fun s => (wd, createJsonCommandString (a0 :: as), s)) := by
      unfold actionEntries
      rw [hargs]
    rw [e1, e2]
    have h := writeSrcs_fold a.sources wd
      (createJsonCommandString (a0 :: as)) acc.1 acc.2
    simp only [Prod.mk.eta] at h
    rw [h, List.length_map]

theorem callEntries_cons (wd : Str) (a : Action) (actions : List Action) :
    callEntries wd (a :: actions) = actionEntries wd a ++ callEntries wd actions := by
  simp [callEntries]

theorem writeActions_fold (actions : List Action) : ∀ (wd acc : Str) (c : Nat),
    List.foldl (fun acc2 a => writeAction wd a acc2) (acc, c) actions
      = (acc ++ renderFrom c (callEntries wd actions),
         c + (callEntries wd actions).length) := by
  induction actions with
  | nil =>
    intro wd acc c
    simp [callEntries, renderFrom, entriesBlock, entriesTail]
  | cons a as ih =>
    intro wd acc c
    rw [List.foldl_cons, writeAction_eq, ih, callEntries_cons, renderFrom_append]
    simp [List.append_assoc]
    omega

theorem entryBytes_len (wd cmd src : Str) : 40 ≤ (entryBytes wd cmd src).length := by
  simp [entryBytes, entryPre1, entryPre2, entryPre3, entryPost, dirKey, cmdKey,
    fileKey]
  omega

theorem entriesBlock_len (es : List (Str × Str × Str)) (h : es ≠ []) :
    6 ≤ (entriesBlock es).length := by
  cases es with
  | nil => exact absurd rfl h
  | cons e es2 =>
    have h1 := entryBytes_len e.1 e.2.1 e.2.2
    simp [entriesBlock]
    omega

theorem wrapDb_len (es : List (Str × Str × Str)) :
    (wrapDb es).length = 3 + (entriesBlock es).length := by
  simp [wrapDb]
  omega

theorem wrapDb_dropLast (es : List (Str × Str × Str)) :
    (wrapDb es).dropLast = [91, 10] ++ entriesBlock es := by
  unfold wrapDb
  rw [List.dropLast_concat]

theorem writeActions_wrap (wd : Str) (actions : List Action)
    (es : List (Str × Str × Str)) :
    writeActions wd actions (wrapDb es) = wrapDb (es ++ callEntries wd actions) := by
  by_cases ha : actions = []
  · subst ha
    simp [writeActions, callEntries]
  · by_cases hes : es = []
    · subst hes
      have h1 : (wrapDb ([] : List (Str × Str × Str))).length = 3 := rfl
      unfold writeActions
      rw [if_neg ha]
      simp only [h1]
      norm_num
      rw [writeActions_fold]
      rw [wrapDb_dropLast]
      simp [renderFrom, wrapDb, entriesBlock]
    · have h6 : 6 ≤ (entriesBlock es).length := entriesBlock_len es hes
      have h2 : ¬ (wrapDb es).length = 0 := by rw [wrapDb_len]; omega
      have h3 : 5 < (wrapDb es).length := by rw [wrapDb_len]; omega
      unfold writeActions
      rw [if_neg ha]
      simp only [if_neg h2, if_pos h3]
      rw [writeActions_fold, wrapDb_dropLast]
      unfold wrapDb
      rw [entriesBlock_append_ne es (callEntries wd actions) hes]
      simp [renderFrom, List.append_assoc]

theorem writeActions_from_nil (wd : Str) (actions : List Action)
    (ha : actions ≠ []) :
    writeActions wd actions [] = wrapDb (callEntries wd actions) := by
  unfold writeActions
  rw [if_neg ha]
  simp only [List.length_nil]
  norm_num
  rw [writeActions_fold]
  simp [renderFrom, wrapDb]

theorem foldWrites_from (calls : List (Str × List Action)) :
    ∀ es, List.foldl (fun content c => writeActions c.1 c.2 content)
        (wrapDb es) calls
      = wrapDb (es ++ allEntries calls) := by
  induction calls with
  | nil => intro es; simp [allEntries]
  | cons c cs ih =>
    intro es
    rw [List.foldl_cons, writeActions_wrap, ih]
    simp [allEntries, List.append_assoc]

theorem runWrites_eq (calls : List (Str × List Action)) (h0 : calls ≠ [])
    (h1 : ∀ c ∈ calls, c.2 ≠ []) :
    runWrites calls = wrapDb (allEntries calls) := by
  match calls with
  | c :: cs =>
    unfold runWrites
    rw [List.foldl_cons, writeActions_from_nil c.1 c.2 (h1 c (by simp)),
      foldWrites_from]
    simp [allEntries]

theorem callEntries_length (wd : Str) (actions : List Action)
    (h : ∀ a ∈ actions, a.arguments ≠ []) :
    (callEntries wd actions).length
      = (actions.map (fun a => a.sources.length)).sum := by
  induction actions with
  | nil => simp [callEntries]
  | cons a as ih =>
    rw [callEntries_cons]
    simp only [List.length_append, List.map_cons, List.sum_cons]
    rw [ih (fun x hx => h x (by simp [hx]))]
    have ha := h a (by simp)
    cases hargs : a.arguments with
    | nil => exact absurd hargs ha
    | cons a0 as2 => simp [actionEntries, hargs]

theorem allEntries_length (calls : List (Str × List Action))
    (h : ∀ c ∈ calls, ∀ a ∈ c.2, a.arguments ≠ []) :
    (allEntries calls).length = pairTotal calls := by
  induction calls with
  | nil => simp [allEntries, pairTotal]
  | cons c cs ih =>
    have hc := h c (by simp)
    have hcs : ∀ x ∈ cs, ∀ a ∈ x.2, a.arguments ≠ [] :=
      fun x hx => h x (by simp [hx])
    simp only [allEntries, List.map_cons, List.flatten_cons, List.length_append]
    rw [callEntries_length c.1 c.2 hc]
    have ih2 := ih hcs
    simp only [allEntries] at ih2
    rw [ih2]
    simp [pairTotal]

theorem mem_actionEntries (wd : Str) (a : Action) (e : Str × Str × Str)
    (he : e ∈ actionEntries wd a) :
    ∃ s ∈ a.sources, e = (wd, createJsonCommandString a.arguments, s) := by
  cases hargs : a.arguments with
  | nil => simp [actionEntries, hargs] at he
  | cons a0 as =>
    rw [actionEntries, hargs] at he
    simp only [List.mem_map] at he
    obtain ⟨s, hs, he2⟩ := he
    exact ⟨s, hs, he2.symm⟩

theorem mem_callEntries (wd : Str) (actions : List Action) (e : Str × Str × Str)
    (he : e ∈ callEntries wd actions) :
    ∃ a ∈ actions, e ∈ actionEntries wd a := by
  unfold callEntries at he
  rw [List.mem_flatten] at he
  obtain ⟨l, hl, hel⟩ := he
  rw [List.mem_map] at hl
  obtain ⟨a, ha, rfl⟩ := hl
  exact ⟨a, ha, hel⟩

theorem mem_allEntries (calls : List (Str × List Action)) (e : Str × Str × Str)
    (he : e ∈ allEntries calls) :
    ∃ c ∈ calls, e ∈ callEntries c.1 c.2 := by
  unfold allEntries at he
  rw [List.mem_flatten] at he
  obtain ⟨l, hl, hel⟩ := he
  rw [List.mem_map] at hl
  obtain ⟨c, hc, rfl⟩ := hl
  exact ⟨c, hc, hel⟩

theorem allEntries_safe (calls : List (Str × List Action))
    (hsafe : ∀ c ∈ calls, JsonSafe c.1 ∧
      ∀ a ∈ c.2, a.arguments ≠ [] ∧ ∀ s ∈ a.sources, JsonSafe s) :
    ∀ e ∈ allEntries calls,
      valSafeB e.1 = true ∧ valSafeB e.2.1 = true ∧ valSafeB e.2.2 = true := by
  intro e he
  obtain ⟨c, hc, he2⟩ := mem_allEntries calls e he
  obtain ⟨a, ha, he3⟩ := mem_callEntries c.1 c.2 e he2
  obtain ⟨s, hs, rfl⟩ := mem_actionEntries c.1 a e he3
  obtain ⟨hwd, hacts⟩ := hsafe c hc
  obtain ⟨-, hsrcs⟩ := hacts a ha
  exact ⟨jsonSafe_valSafe c.1 hwd, valSafe_command a.arguments,
    jsonSafe_valSafe s (hsrcs s hs)⟩

/-- C1 (amended): starting from an absent or zero-length database, a
non-empty sequence of serialised writeActions calls, each with a non-empty
action list whose actions have non-empty argument vectors, and whose
working directories and source paths contain no byte below 0x20, no quote
and no backslash, appends exactly one database entry per (Action, source)
pair, and the resulting file content parses as a JSON array with exactly
the total number of (Action, source) pairs as objects, each object having
exactly the three string keys directory, command and file. -/
theorem emitter_json_wellformed (calls : List (Str × List Action))
    (h0 : calls ≠ [])
    (h1 : ∀ c ∈ calls, c.2 ≠ [])
    (h2 : ∀ c ∈ calls, JsonSafe c.1 ∧
      ∀ a ∈ c.2, a.arguments ≠ [] ∧ ∀ s ∈ a.sources, JsonSafe s) :
    jsonScan (runWrites calls)
      = some (List.replicate (pairTotal calls) keysTriple) := by
  rw [runWrites_eq calls h0 h1,
    jsonScan_wrapDb (allEntries calls) (allEntries_safe calls h2),
    allEntries_length calls (fun c hc a ha => ((h2 c hc).2 a ha).1)]

/-- Witness for C1: two serialised calls, the first with two sources and
the second with one, produce a database that scans as three objects with
the three keys. -/
theorem emitter_json_wellformed_witness :
    jsonScan (runWrites [([47], [⟨[95], [[103]], [[97], [98]]⟩]),
        ([47], [⟨[95], [[103]], [[99]]⟩])])
      = some (List.replicate 3 keysTriple) := by
  have h := emitter_json_wellformed
    [([47], [⟨[95], [[103]], [[97], [98]]⟩]), ([47], [⟨[95], [[103]], [[99]]⟩])]
    (by decide) (by decide) (by decide)
  rw [h]
  decide

/-- C1 counterexample: a single serialised append of one action with one
source, from a working directory consisting of one double-quote byte,
leaves a file that does not parse as JSON at all, although the claim as
stated promises a well-formed one-object array (the emitter escapes only
the command, not the directory and file fields). -/
theorem emitter_json_counterexample :
    jsonScan (runWrites [([34], [⟨[95], [[103]], [[97]]⟩])]) = none ∧
    pairTotal [([34], [⟨[95], [[103]], [[97]]⟩])] = 1 := by
  decide

/-- C10: an intercepted call whose parsed action list is empty writes zero
bytes: the database content is unchanged, but the database file and its
sibling .lock file are created; a zero-length database is not a JSON
array. -/
theorem logExec_emptyActions (f wd : Str) (argc : Nat) (acts : List Action)
    (fs : Fs) (h2 : 2 ≤ argc) (ha : acts = []) :
    logExec (some f) true true true true true (some wd) argc acts fs
      = (0, ⟨true, true, fs.db⟩) ∧ jsonScan [] = none := by
  subst ha
  constructor
  · unfold logExec
    rw [if_neg (by omega : ¬ argc < 2)]
    simp [writeActions]
  · rfl

/-- Witness for C10 at a concrete call. -/
theorem logExec_emptyActions_witness :
    logExec (some [100]) true true true true true (some [47]) 2 [] ⟨false, false, []⟩
      = (0, ⟨true, true, []⟩) ∧ jsonScan [] = none :=
  logExec_emptyActions [100] [47] 2 [] ⟨false, false, []⟩ (by omega) rfl


theorem loggerGccParserCollectActions_eq (env : Env) (prog : Str)
    (argv : List Str) (actions : List Action) :
    loggerGccParserCollectActions env prog argv actions =
      if gccFinalize env (gccFullScan env prog argv) ≠ [] then
        (actions ++ [⟨(gccFullScan env prog argv).output,
          (gccFullScan env prog argv).args,
          gccFinalize env (gccFullScan env prog argv)⟩], 1)
      else
        match getResponseFile (gccFullScan env prog argv).args with
        | some r => (actions ++ [⟨(gccFullScan env prog argv).output,
            (gccFullScan env prog argv).args, [r]⟩], (1 : Int))
        | none => (actions, (1 : Int)) := rfl

theorem getResponseFile_head (args : List Str) (r : Str)
    (h : getResponseFile args = some r) : r.head? = some 64 := by
  have h2 := List.find?_some h
  simpa using h2

/-- C4: for every input, the GCC-family parser never signals failure
(returns 1), appends exactly one Action carrying the filtered sources when
they are non-empty, otherwise exactly one Action whose sole source is the
first element of the built argument vector beginning with an at-sign,
otherwise none. -/
theorem gccCollect_commit (env : Env) (prog : Str) (argv : List Str)
    (actions : List Action) :
    (loggerGccParserCollectActions env prog argv actions).2 = 1 ∧
    (gccFinalize env (gccFullScan env prog argv) ≠ [] →
      (loggerGccParserCollectActions env prog argv actions).1
        = actions ++ [⟨(gccFullScan env prog argv).output,
            (gccFullScan env prog argv).args,
            gccFinalize env (gccFullScan env prog argv)⟩]) ∧
    (gccFinalize env (gccFullScan env prog argv) = [] →
      ∀ r, getResponseFile (gccFullScan env prog argv).args = some r →
        r.head? = some 64 ∧
        (loggerGccParserCollectActions env prog argv actions).1
          = actions ++ [⟨(gccFullScan env prog argv).output,
              (gccFullScan env prog argv).args, [r]⟩]) ∧
    (gccFinalize env (gccFullScan env prog argv) = [] →
      getResponseFile (gccFullScan env prog argv).args = none →
      (loggerGccParserCollectActions env prog argv actions).1 = actions) := by
  refine ⟨?_, ?_, ?_, ?_⟩
  · rw [loggerGccParserCollectActions_eq]
    split
    · rfl
    · split <;> rfl
  · intro h
    rw [loggerGccParserCollectActions_eq, if_pos h]
  · intro h r hr
    refine ⟨getResponseFile_head _ r hr, ?_⟩
    rw [loggerGccParserCollectActions_eq, if_neg (not_not_intro h), hr]
  · intro h hr
    rw [loggerGccParserCollectActions_eq, if_neg (not_not_intro h), hr]

/-- Witness for C4: a plain compile commits one action with the source,
and the return value is 1. -/
theorem gccCollect_commit_witness :
    (loggerGccParserCollectActions envNone [47, 103, 99, 99]
        [[103, 99, 99], [45, 99], [102, 111, 111, 46, 99]] []).2 = 1 ∧
    (loggerGccParserCollectActions envNone [47, 103, 99, 99]
        [[103, 99, 99], [45, 99], [102, 111, 111, 46, 99]] []).1
      = [] ++ [⟨(gccFullScan envNone [47, 103, 99, 99]
            [[103, 99, 99], [45, 99], [102, 111, 111, 46, 99]]).output,
          (gccFullScan envNone [47, 103, 99, 99]
            [[103, 99, 99], [45, 99], [102, 111, 111, 46, 99]]).args,
          gccFinalize envNone (gccFullScan envNone [47, 103, 99, 99]
            [[103, 99, 99], [45, 99], [102, 111, 111, 46, 99]])⟩] :=
  ⟨(gccCollect_commit envNone [47, 103, 99, 99]
      [[103, 99, 99], [45, 99], [102, 111, 111, 46, 99]] []).1,
   (gccCollect_commit envNone [47, 103, 99, 99]
      [[103, 99, 99], [45, 99], [102, 111, 111, 46, 99]] []).2.1 (by decide)⟩

theorem filter_eraseIdx_findIdx (p : Str → Bool) : ∀ (l : List Str) (i : Nat),
    l.findIdx? p = some i →
    (l.eraseIdx i).filter (fun s => !p s) = l.filter (fun s => !p s) := by
  intro l
  induction l with
  | nil => intro i h; simp at h
  | cons a t ih =>
    intro i h
    rw [List.findIdx?_cons] at h
    by_cases hpa : p a = true
    · rw [if_pos hpa] at h
      have hi : i = 0 := by injection h with h2; omega
      subst hi
      simp [List.filter_cons, hpa]
    · rw [if_neg hpa, List.findIdx?_succ] at h
      obtain ⟨j, hj, rfl⟩ := Option.map_eq_some'.mp h
      have hb : (!p a) = true := by simp [hpa]
      simp only [List.eraseIdx_cons_succ, List.filter_cons, hb]
      rw [ih j hj]

theorem removeObjLoop_filter : ∀ (fuel : Nat) (l : List Str), l.length < fuel →
    removeObjLoop fuel l = l.filter (fun s => !isObjectFile s) := by
  intro fuel
  induction fuel with
  | zero => intro l h; omega
  | succ f ih =>
    intro l h
    rw [removeObjLoop]
    cases hf : l.findIdx? (fun s => isObjectFile s) with
    | none =>
      have hall := List.findIdx?_eq_none_iff.mp hf
      exact (List.filter_eq_self.mpr (fun a ha => by simp [hall a ha])).symm
    | some i =>
      have hi : i < l.length := (List.findIdx?_eq_some_iff_findIdx_eq.mp hf).1
      have hlen : (l.eraseIdx i).length < f := by
        rw [List.length_eraseIdx]
        simp only [hi, if_pos]
        omega
      show removeObjLoop f (l.eraseIdx i) = List.filter (fun s => !isObjectFile s) l
      rw [ih (l.eraseIdx i) hlen]
      exact filter_eraseIdx_findIdx _ l i hf

/-- C5 (amended): with CC_LOGGER_KEEP_LINK not equal to "true", every
source of every newly emitted GCC Action either has no object extension
(o, so, a, case-insensitively) or begins with an at-sign (the
response-file promotion). -/
theorem gcc_keepLink_filter (env : Env) (hk : env.keepLink = false)
    (prog : Str) (argv : List Str) (actions : List Action) :
    ∀ act ∈ (loggerGccParserCollectActions env prog argv actions).1.drop
        actions.length,
      ∀ s ∈ act.sources, isObjectFile s = false ∨ s.head? = some 64 := by
  intro act hact s hs
  revert hact
  rw [loggerGccParserCollectActions_eq]
  split
  · intro hact
    rw [List.drop_left] at hact
    simp only [List.mem_singleton] at hact
    subst hact
    simp only at hs
    left
    unfold gccFinalize at hs
    rw [hk] at hs
    simp only [Bool.false_eq_true, if_neg] at hs
    rw [removeObjLoop_filter _ _ (by omega)] at hs
    have := (List.mem_filter.mp hs).2
    simpa using this
  · split
    · intro hact
      rw [List.drop_left] at hact
      simp only [List.mem_singleton] at hact
      subst hact
      simp only [List.mem_singleton] at hs
      subst hs
      right
      exact getResponseFile_head _ _ (by assumption)
    · intro hact
      rw [List.drop_length] at hact
      simp at hact

/-- Witness for C5 at the response-file promotion input gcc @foo.o. -/
theorem gcc_keepLink_filter_witness :
    isObjectFile [64, 102, 111, 111, 46, 111] = false ∨
    ([64, 102, 111, 111, 46, 111] : Str).head? = some 64 :=
  gcc_keepLink_filter envNone rfl [47, 103, 99, 99]
    [[103, 99, 99], [64, 102, 111, 111, 46, 111]] []
    ⟨[46, 47, 95, 110, 111, 111, 98, 106],
      [[47, 103, 99, 99], [64, 102, 111, 111, 46, 111]],
      [[64, 102, 111, 111, 46, 111]]⟩
    (by decide) [64, 102, 111, 111, 46, 111] (by decide)

/-- C5 counterexample: gcc @foo.o with CC_LOGGER_KEEP_LINK unset emits an
Action whose sole source @foo.o has the object extension o, contradicting
the claim as stated. -/
theorem gcc_keepLink_counterexample :
    envNone.keepLink = false ∧
    (loggerGccParserCollectActions envNone [47, 103, 99, 99]
        [[103, 99, 99], [64, 102, 111, 111, 46, 111]] []).1.map Action.sources
      = [[[64, 102, 111, 111, 46, 111]]] ∧
    isObjectFile [64, 102, 111, 111, 46, 111] = true := by
  decide

theorem strstrIdx_some_drop (needle : Str) : ∀ (hay : Str) (i : Nat),
    strstrIdx needle hay = some i → needle.isPrefixOf (hay.drop i) = true := by
  intro hay
  induction hay with
  | nil =>
    intro i h
    rw [strstrIdx] at h
    split at h
    · injection h with h2
      subst h2
      assumption
    · exact absurd h (by simp)
  | cons b t ih =>
    intro i h
    rw [strstrIdx] at h
    split at h
    · injection h with h2
      subst h2
      assumption
    · obtain ⟨j, hj, rfl⟩ := Option.map_eq_some'.mp h
      simpa using ih j hj

theorem strstrIdx_none_drop (needle : Str) : ∀ (hay : Str) (i : Nat),
    strstrIdx needle hay = none → needle.isPrefixOf (hay.drop i) = false := by
  intro hay
  induction hay with
  | nil =>
    intro i h
    rw [strstrIdx] at h
    split at h
    · exact absurd h (by simp)
    · rename_i hp
      simp only [Bool.not_eq_true] at hp
      simpa using hp
  | cons b t ih =>
    intro i h
    rw [strstrIdx] at h
    split at h
    · exact absurd h (by simp)
    · rename_i hp
      simp only [Bool.not_eq_true] at hp
      have ht : strstrIdx needle t = none := by
        cases hx : strstrIdx needle t with
        | none => rfl
        | some k => rw [hx] at h; simp at h
      cases i with
      | zero => simpa using hp
      | succ m => simpa using ih m ht

theorem strstrIdx_some_first (needle : Str) : ∀ (hay : Str) (i j : Nat),
    strstrIdx needle hay = some i → j < i →
    needle.isPrefixOf (hay.drop j) = false := by
  intro hay
  induction hay with
  | nil =>
    intro i j h hj
    rw [strstrIdx] at h
    split at h
    · injection h with h2; omega
    · exact absurd h (by simp)
  | cons b t ih =>
    intro i j h hj
    rw [strstrIdx] at h
    split at h
    · injection h with h2; omega
    · rename_i hp
      simp only [Bool.not_eq_true] at hp
      obtain ⟨k, hk, rfl⟩ := Option.map_eq_some'.mp h
      cases j with
      | zero => simpa using hp
      | succ m => simpa using ih k m hk (by omega)

theorem strstrB_iff_infixOf (hay needle : Str) :
    strstrB hay needle = true ↔ needle <:+: hay := by
  unfold strstrB
  constructor
  · intro h
    cases hidx : strstrIdx needle hay with
    | none => rw [hidx] at h; simp at h
    | some i =>
      have hp := (List.isPrefixOf_iff_prefix).mp
        (strstrIdx_some_drop needle hay i hidx)
      exact hp.isInfix.trans (List.drop_suffix i hay).isInfix
  · intro h
    obtain ⟨u, v, huv⟩ := h
    have hocc : needle.isPrefixOf (hay.drop u.length) = true := by
      rw [← huv, List.append_assoc, List.drop_left]
      exact (List.isPrefixOf_iff_prefix).mpr (List.prefix_append _ _)
    cases hidx : strstrIdx needle hay with
    | some i => simp
    | none =>
      rw [strstrIdx_none_drop needle hay u.length hidx] at hocc
      exact absurd hocc (by simp)

theorem matchOneToken_iff (p tok : Str) :
    matchOneToken p tok = true ↔
      (if 47 ∈ tok then
        tok <:+ p ∧ ∀ j, tok <+: List.drop j p → p.length - tok.length ≤ j
      else tok <:+: progBasename p) := by
  unfold matchOneToken
  by_cases hc : 47 ∈ tok
  · have hcb : tok.contains 47 = true := by
      simpa [List.contains] using List.elem_iff.mpr hc
    have htok : tok ≠ [] := by
      intro he
      rw [he] at hc
      simp at hc
    rw [if_pos hcb, if_pos hc]
    constructor
    · intro h
      cases hidx : strstrIdx tok p with
      | none => rw [hidx] at h; simp at h
      | some i =>
        rw [hidx] at h
        have heq : p.drop i = tok := by simpa using h
        have hsuf : tok <:+ p := heq ▸ List.drop_suffix i p
        refine ⟨hsuf, ?_⟩
        intro j hj
        by_contra hlt
        have hdlen : p.length - i = tok.length := by
          rw [← heq, List.length_drop]
        have hile : i ≤ p.length := by
          by_contra hgt
          have : p.drop i = [] := List.drop_eq_nil_of_le (by omega)
          rw [this] at heq
          exact htok heq.symm
        have := strstrIdx_some_first tok p i j hidx (by omega)
        rw [(List.isPrefixOf_iff_prefix).mpr hj] at this
        exact absurd this (by simp)
    · rintro ⟨hsuf, hmin⟩
      obtain ⟨u, hu⟩ := hsuf
      have hdrop : p.drop u.length = tok := by
        rw [← hu, List.drop_left]
      have hul : u.length + tok.length = p.length := by
        rw [← hu]
        simp
      cases hidx : strstrIdx tok p with
      | none =>
        have hf := strstrIdx_none_drop tok p u.length hidx
        rw [hdrop] at hf
        rw [(List.isPrefixOf_iff_prefix).mpr (List.prefix_refl tok)] at hf
        exact absurd hf (by simp)
      | some i =>
        show (p.drop i == tok) = true
        have hpre2 : tok <+: p.drop i := (List.isPrefixOf_iff_prefix).mp
          (strstrIdx_some_drop tok p i hidx)
        have h1 : p.length - tok.length ≤ i := hmin i hpre2
        have h2 : ¬ (u.length < i) := by
          intro hl
          have hff := strstrIdx_some_first tok p i u.length hidx hl
          rw [hdrop] at hff
          rw [(List.isPrefixOf_iff_prefix).mpr (List.prefix_refl tok)] at hff
          exact absurd hff (by simp)
        have hi : i = p.length - tok.length := by omega
        have hlen2 : tok.length = (p.drop i).length := by
          rw [List.length_drop]
          omega
        have heq2 : tok = p.drop i := List.IsPrefix.eq_of_length hpre2 hlen2
        simp [← heq2]
  · rw [if_neg (by simpa using hc), if_neg hc]
    exact strstrB_iff_infixOf (progBasename p) tok

/-- C7 (amended): the classifier matches exactly when some non-empty
colon-separated element matches — as the first-occurrence-at-end test of
the full path when it contains a slash, as an infix of the basename
otherwise; an unset variable never matches; and when neither list matches,
no parser is dispatched and the action list is returned unchanged with
return value 0. -/
theorem matchToProgramList_characterisation :
    (∀ v p, matchToProgramList (some v) p = true ↔
      ∃ tok ∈ strtokSplit v,
        (if 47 ∈ tok then
          tok <:+ p ∧ ∀ j, tok <+: List.drop j p → p.length - tok.length ≤ j
        else tok <:+: progBasename p)) ∧
    (∀ p, matchToProgramList none p = false) ∧
    (∀ env prog argv actions,
      matchToProgramList env.gccLike prog = false →
      matchToProgramList env.javacLike prog = false →
      loggerCollectActionsByProgName env prog argv actions = (actions, 0)) := by
  refine ⟨?_, fun p => rfl, ?_⟩
  · intro v p
    show (strtokSplit v).any (fun tok => matchOneToken p tok) = true ↔ _
    rw [List.any_eq_true]
    constructor
    · rintro ⟨tok, htok, hm⟩
      exact ⟨tok, htok, (matchOneToken_iff p tok).mp hm⟩
    · rintro ⟨tok, htok, hm⟩
      exact ⟨tok, htok, (matchOneToken_iff p tok).mpr hm⟩
  · intro env prog argv actions h1 h2
    unfold loggerCollectActionsByProgName
    rw [if_neg (by simp [h1]), if_neg (by simp [h2])]

/-- Witness for C7: with both matcher variables unset nothing is
dispatched, and a slashless matcher matches a basename infix. -/
theorem matchToProgramList_characterisation_witness :
    loggerCollectActionsByProgName envNone [47, 103, 99, 99] [[103, 99, 99]] []
      = ([], 0) ∧
    matchToProgramList (some [103, 99, 99]) [47, 117, 115, 114, 47, 103, 99, 99]
      = true :=
  ⟨matchToProgramList_characterisation.2.2 envNone [47, 103, 99, 99]
      [[103, 99, 99]] [] rfl rfl,
   (matchToProgramList_characterisation.1 [103, 99, 99]
      [47, 117, 115, 114, 47, 103, 99, 99]).mpr
     ⟨[103, 99, 99], by decide, by
        rw [if_neg (by decide : ¬ (47 ∈ ([103, 99, 99] : Str)))]
        decide⟩⟩

/-- C7 counterexample: for the matcher list "a/b" and the path "a/ba/b"
the claim's condition holds (the matcher contains a slash and is a suffix
of the path), yet the classifier reports no match, because only the first
strstr occurrence is compared against the tail. -/
theorem matchToProgramList_counterexample :
    specMatchList [97, 47, 98] [97, 47, 98, 97, 47, 98] = true ∧
    List.isSuffixOf [97, 47, 98] [97, 47, 98, 97, 47, 98] = true ∧
    matchToProgramList (some [97, 47, 98]) [97, 47, 98, 97, 47, 98] = false := by
  decide

/-- C8 (code bug): after turnLogging(0) has renamed LD_PRELOAD= to
XD_PRELOAD=, turnLogging(1) is a no-op — the entry no longer contains the
needle "LD_PRELOAD=", so the round-trip leaves XD_PRELOAD= in place and
interception is not re-enabled. -/
theorem turnLogging_not_restored :
    turnLogging true (turnLogging false
        [[76, 68, 95, 80, 82, 69, 76, 79, 65, 68, 61, 47, 108, 105, 98]])
      = [[88, 68, 95, 80, 82, 69, 76, 79, 65, 68, 61, 47, 108, 105, 98]] ∧
    List.isPrefixOf ldPreloadNeedle
        [88, 68, 95, 80, 82, 69, 76, 79, 65, 68, 61, 47, 108, 105, 98] = false ∧
    List.isPrefixOf ldPreloadNeedle
        [76, 68, 95, 80, 82, 69, 76, 79, 65, 68, 61, 47, 108, 105, 98] = true := by
  decide

theorem appendArg_sources (st : GccScanSt) (cur : Str) :
    (appendArg st cur).sources = st.sources := by
  unfold appendArg; split <;> rfl

theorem gccScanStep_sources (env : Env) (st : GccScanSt) (cur : Str)
    (next : Option Str) :
    (gccScanStep env st cur next).sources = st.sources ∨
    ∃ x, (gccScanStep env st cur next).sources = addUnique st.sources x := by
  simp only [gccScanStep]
  repeat' split
  all_goals try (left; simp [appendArg_sources]; done)
  all_goals (simp only [appendArg_sources]; right; exact ⟨_, rfl⟩)

set_option maxHeartbeats 1000000 in
theorem gccInject_sources (env : Env) (st : GccScanSt) :
    (gccInject env st).sources = st.sources := by
  simp only [gccInject]
  repeat' split
  all_goals rfl

theorem addUnique_nodup (l : List Str) (x : Str) (h : l.Nodup) :
    (addUnique l x).Nodup := by
  unfold addUnique
  split
  · exact h
  · simp [List.nodup_append, h]
    intro hx
    exact absurd hx (by assumption)

theorem mem_addUnique (s : Str) (l : List Str) (x : Str)
    (h : s ∈ addUnique l x) : s ∈ l ∨ s = x := by
  unfold addUnique at h
  split at h
  · exact Or.inl h
  · simpa using h

theorem processArg_sources (env : Env) (d : JavacData) (arg : Str) :
    (processArg env d arg).sources = d.sources ∨
    ∃ p, makeAbs0 env arg = some p ∧ loggerGetFileExt arg = some javaExt ∧
      (processArg env d arg).sources = addUnique d.sources p := by
  unfold processArg
  cases d.state
  all_goals simp only
  · repeat' split
    all_goals try (left; rfl)
    rename_i x1 e hext hj x2 p hp
    exact Or.inr ⟨p, hp, by rw [hext, hj]; rfl, rfl⟩
  · repeat' split
    all_goals simp
  · repeat' split
    all_goals simp

theorem processArg_nodup (env : Env) (d : JavacData) (arg : Str)
    (h : d.sources.Nodup) : (processArg env d arg).sources.Nodup := by
  rcases processArg_sources env d arg with hs | ⟨p, _, _, hs⟩
  · rw [hs]; exact h
  · rw [hs]; exact addUnique_nodup _ _ h

theorem foldl_processArg_nodup (env : Env) : ∀ (args : List Str) (d : JavacData),
    d.sources.Nodup → (args.foldl (processArg env) d).sources.Nodup := by
  intro args
  induction args with
  | nil => intro d h; exact h
  | cons a t ih => intro d h; exact ih _ (processArg_nodup env d a h)

theorem javacExpandArg_nodup (env : Env) (d : JavacData) (arg : Str)
    (h : d.sources.Nodup) : (javacExpandArg env d arg).sources.Nodup := by
  unfold javacExpandArg
  split
  · exact foldl_processArg_nodup env _ d h
  · exact processArg_nodup env d arg h

theorem javacFold_nodup (env : Env) (prog : Str) (argv : List Str) :
    (javacFold env prog argv).sources.Nodup := by
  unfold javacFold
  have : ∀ (args : List Str) (d : JavacData), d.sources.Nodup →
      (args.foldl (javacExpandArg env) d).sources.Nodup := by
    intro args
    induction args with
    | nil => intro d h; exact h
    | cons a t ih => intro d h; exact ih _ (javacExpandArg_nodup env d a h)
  exact this _ _ List.nodup_nil

theorem javacScan_sources (env : Env) (prog : Str) (argv : List Str) :
    (javacScan env prog argv).sources = (javacFold env prog argv).sources := by
  simp only [javacScan]
  repeat' split
  all_goals rfl

theorem processArg_extInv (env : Env) (he : ExtPreserving env) (d : JavacData)
    (arg : Str) (h : JavaExtInv d) : JavaExtInv (processArg env d arg) := by
  rcases processArg_sources env d arg with hs | ⟨p, hp, hext, hs⟩
  · intro s hsm; rw [hs] at hsm; exact h s hsm
  · intro s hsm
    rw [hs] at hsm
    rcases mem_addUnique s _ p hsm with hm | rfl
    · exact h s hm
    · unfold makeAbs0 at hp
      split at hp
      · exact absurd hp (by simp)
      · rw [he arg s hp]; exact hext

theorem foldl_processArg_extInv (env : Env) (he : ExtPreserving env) :
    ∀ (args : List Str) (d : JavacData),
    JavaExtInv d → JavaExtInv (args.foldl (processArg env) d) := by
  intro args
  induction args with
  | nil => intro d h; exact h
  | cons a t ih => intro d h; exact ih _ (processArg_extInv env he d a h)

theorem javacExpandArg_extInv (env : Env) (he : ExtPreserving env)
    (d : JavacData) (arg : Str) (h : JavaExtInv d) :
    JavaExtInv (javacExpandArg env d arg) := by
  unfold javacExpandArg
  split
  · exact foldl_processArg_extInv env he _ d h
  · exact processArg_extInv env he d arg h

theorem javacFold_extInv (env : Env) (he : ExtPreserving env) (prog : Str)
    (argv : List Str) : JavaExtInv (javacFold env prog argv) := by
  unfold javacFold
  have : ∀ (args : List Str) (d : JavacData), JavaExtInv d →
      JavaExtInv (args.foldl (javacExpandArg env) d) := by
    intro args
    induction args with
    | nil => intro d h; exact h
    | cons a t ih => intro d h; exact ih _ (javacExpandArg_extInv env he d a h)
  exact this _ _ (fun s hs => absurd hs (by simp))

theorem gccScanStep_nodup (env : Env) (st : GccScanSt) (cur : Str)
    (next : Option Str) (h : st.sources.Nodup) :
    (gccScanStep env st cur next).sources.Nodup := by
  rcases gccScanStep_sources env st cur next with hs | ⟨x, hs⟩
  · rw [hs]; exact h
  · rw [hs]; exact addUnique_nodup _ _ h

theorem gccScanArgs_nodup (env : Env) : ∀ (args : List Str) (st : GccScanSt),
    st.sources.Nodup → (gccScanArgs env st args).sources.Nodup := by
  intro args
  induction args with
  | nil => intro st h; exact h
  | cons a t ih =>
    intro st h
    exact ih _ (gccScanStep_nodup env st a t.head? h)

theorem gccFullScan_nodup (env : Env) (prog : Str) (argv : List Str) :
    (gccFullScan env prog argv).sources.Nodup := by
  unfold gccFullScan
  rw [gccInject_sources]
  exact gccScanArgs_nodup env _ _ List.nodup_nil

theorem strrchrSuffix_append_some (c : Nat) (u v s : Str)
    (h : strrchrSuffix c v = some s) : strrchrSuffix c (u ++ v) = some s := by
  induction u with
  | nil => simpa using h
  | cons b t ih =>
    show (match strrchrSuffix c (t ++ v) with
      | some s => some s
      | none => if b = c then some (b :: (t ++ v)) else none) = some s
    rw [ih]

theorem strrchrSuffix_append_none (c : Nat) (u v : Str)
    (h : strrchrSuffix c v = none) :
    strrchrSuffix c (u ++ v) = (strrchrSuffix c u).map (fun s => s ++ v) := by
  induction u with
  | nil => simpa using h
  | cons b t ih =>
    show (match strrchrSuffix c (t ++ v) with
      | some s => some s
      | none => if b = c then some (b :: (t ++ v)) else none)
      = (strrchrSuffix c (b :: t)).map (fun s => s ++ v)
    rw [ih]
    cases hx : strrchrSuffix c t with
    | some s =>
      show some (s ++ v) = _
      show _ = (match strrchrSuffix c t with
        | some s => some s
        | none => if b = c then some (b :: t) else none).map (fun s => s ++ v)
      rw [hx]
      rfl
    | none =>
      show (if b = c then some (b :: (t ++ v)) else none) = _
      show _ = (match strrchrSuffix c t with
        | some s => some s
        | none => if b = c then some (b :: t) else none).map (fun s => s ++ v)
      rw [hx]
      split <;> simp

theorem strrchrSuffix_head (c : Nat) : ∀ (p s : Str),
    strrchrSuffix c p = some s → ∃ t, s = c :: t := by
  intro p
  induction p with
  | nil => intro s h; simp [strrchrSuffix] at h
  | cons b r ih =>
    intro s h
    rw [strrchrSuffix] at h
    split at h
    · rename_i s2 hs2
      exact ih s (by rw [hs2]; exact h)
    · split at h
      · rename_i hbc
        injection h with h2
        exact ⟨r, by rw [← h2, hbc]⟩
      · exact absurd h (by simp)

theorem clsSuffix_strrchr46 :
    strrchrSuffix 46 [46, 99, 108, 97, 115, 115] = some [46, 99, 108, 97, 115, 115] := by
  decide

theorem loggerGetFileName_dotclass (z : Str) (hz : z ≠ []) :
    ∃ w, loggerGetFileName (z ++ [46, 99, 108, 97, 115, 115]) false
      = some (w ++ [46, 99, 108, 97, 115, 115]) := by
  unfold loggerGetFileName
  rw [strrchrSuffix_append_none 47 z [46, 99, 108, 97, 115, 115] (by decide)]
  cases h : strrchrSuffix 47 z with
  | some s =>
    obtain ⟨t, rfl⟩ := strrchrSuffix_head 47 z s h
    refine ⟨t, ?_⟩
    show (match (47 :: t) ++ [46, 99, 108, 97, 115, 115] with
      | [] => none
      | [_] => none
      | _ :: rest => some rest) = _
    cases t <;> rfl
  | none =>
    cases z with
    | nil => exact absurd rfl hz
    | cons b t =>
      refine ⟨t, ?_⟩
      show (match (b :: t) ++ [46, 99, 108, 97, 115, 115] with
        | [] => none
        | [_] => none
        | _ :: rest => some rest) = _
      cases t <;> rfl

theorem ext_dotclass (z : Str) (hz : z ≠ []) :
    loggerGetFileExt (z ++ [46, 99, 108, 97, 115, 115])
      = some [99, 108, 97, 115, 115] := by
  obtain ⟨w, hw⟩ := loggerGetFileName_dotclass z hz
  unfold loggerGetFileExt
  rw [hw]
  show (match strrchrSuffix 46 (w ++ [46, 99, 108, 97, 115, 115]) with
    | none => none
    | some s => some ((s.drop 1).map toLowerB)) = some [99, 108, 97, 115, 115]
  rw [strrchrSuffix_append_some 46 w _ _ clsSuffix_strrchr46]
  rfl

theorem fileInit_ext (env : Env) (he : ExtPreserving env) (q : Str) :
    loggerGetFileExt (fileInit env q) = loggerGetFileExt q := by
  unfold fileInit makeAbs0
  split
  · rfl
  · cases h : env.makeAbsFn q with
    | none => rfl
    | some r => exact he q r h

theorem javacOutput_ext (env : Env) (he : ExtPreserving env) (d : JavacData)
    (src : Str) :
    loggerGetFileExt (fileInit env (javacOutputFile d src))
      = some [99, 108, 97, 115, 115] ∨
    loggerGetFileExt (fileInit env (javacOutputFile d src)) = none := by
  rw [fileInit_ext env he]
  unfold javacOutputFile
  split
  · left
    exact ext_dotclass _ (by simp)
  · by_cases hz : loggerGetFilePathWithoutExt src = []
    · right
      rw [hz]
      decide
    · left
      exact ext_dotclass _ hz

theorem gccFinalize_not_mem (env : Env) (st : GccScanSt)
    (h : st.sources.Nodup) : st.output ∉ gccFinalize env st := by
  simp only [gccFinalize]
  split
  · exact List.Nodup.not_mem_erase h
  · intro hm
    rw [removeObjLoop_filter] at hm
    · exact List.Nodup.not_mem_erase h (List.mem_filter.mp hm).1
    · omega

theorem foldl_append_map (f : Str → Action) :
    ∀ (l : List Str) (acc : List Action),
    l.foldl (fun a s => a ++ [f s]) acc = acc ++ l.map f := by
  intro l
  induction l with
  | nil => intro acc; simp
  | cons x t ih => intro acc; simp [ih]

/-- C6 (amended): every Action the GCC-family parser commits whose
output path does not begin with an at-sign has its output outside its
sources (the -MT-style overlap is erased before commit and the collected
source set never holds duplicates); every Action the Java parser commits
has its output outside its sources whenever path canonicalisation
preserves file extensions, since the output ends in .class while every
collected source has extension java. -/
theorem output_not_in_sources :
    (∀ (env : Env) (prog : Str) (argv : List Str) (actions : List Action)
        (act : Action),
      (loggerGccParserCollectActions env prog argv actions).1
        = actions ++ [act] →
      act.output.head? ≠ some 64 →
      act.output ∉ act.sources) ∧
    (∀ (env : Env), ExtPreserving env →
      ∀ (prog : Str) (argv : List Str) (actions : List Action) (act : Action),
      act ∈ (loggerJavacParserCollectActions env prog argv actions).1.drop
        actions.length →
      act.output ∉ act.sources) := by
  constructor
  · intro env prog argv actions act hres hat
    rw [loggerGccParserCollectActions_eq] at hres
    split at hres
    · have h1 := List.append_cancel_left hres
      have hact : act = ⟨(gccFullScan env prog argv).output,
          (gccFullScan env prog argv).args,
          gccFinalize env (gccFullScan env prog argv)⟩ := by
        simpa using h1.symm
      subst hact
      exact gccFinalize_not_mem env _ (gccFullScan_nodup env prog argv)
    · split at hres
      · rename_i r hr
        have h1 := List.append_cancel_left hres
        have hact : act = ⟨(gccFullScan env prog argv).output,
            (gccFullScan env prog argv).args, [r]⟩ := by
          simpa using h1.symm
        subst hact
        intro hm
        simp only [List.mem_singleton] at hm
        apply hat
        show (gccFullScan env prog argv).output.head? = some 64
        rw [hm]
        exact getResponseFile_head _ _ hr
      · exact absurd hres (by simp)
  · intro env he prog argv actions act hmem
    have hres : (loggerJavacParserCollectActions env prog argv actions).1
        = actions ++ (javacScan env prog argv).sources.map
            (mkJavacAction env (javacScan env prog argv)) := by
      show ((javacScan env prog argv).sources.foldl
          (fun acc src => acc ++ [mkJavacAction env (javacScan env prog argv) src])
          actions) = _
      exact foldl_append_map _ _ _
    rw [hres, List.drop_left] at hmem
    obtain ⟨src, hsrc, rfl⟩ := List.mem_map.mp hmem
    intro hm
    simp only [mkJavacAction, List.mem_singleton] at hm
    have hsext : loggerGetFileExt src = some javaExt :=
      javacFold_extInv env he prog argv src
        (javacScan_sources env prog argv ▸ hsrc)
    rcases javacOutput_ext env he (javacScan env prog argv) src with ho | ho
    · rw [hm, hsext] at ho
      exact absurd ho (by decide)
    · rw [hm, hsext] at ho
      exact absurd ho (by decide)

theorem output_not_in_sources_witness :
    (Action.mk [46, 47, 95, 110, 111, 111, 98, 106]
        [[47, 103, 99, 99], [45, 99], [102, 111, 111, 46, 99]]
        [[102, 111, 111, 46, 99]]).output ∉
      (Action.mk [46, 47, 95, 110, 111, 111, 98, 106]
        [[47, 103, 99, 99], [45, 99], [102, 111, 111, 46, 99]]
        [[102, 111, 111, 46, 99]]).sources ∧
    (Action.mk [65, 46, 99, 108, 97, 115, 115]
        [[47, 106, 97, 118, 97, 99],
         [45, 115, 111, 117, 114, 99, 101, 112, 97, 116, 104], [46],
         [65, 46, 106, 97, 118, 97]]
        [[65, 46, 106, 97, 118, 97]]).output ∉
      (Action.mk [65, 46, 99, 108, 97, 115, 115]
        [[47, 106, 97, 118, 97, 99],
         [45, 115, 111, 117, 114, 99, 101, 112, 97, 116, 104], [46],
         [65, 46, 106, 97, 118, 97]]
        [[65, 46, 106, 97, 118, 97]]).sources :=
  ⟨output_not_in_sources.1 envNone [47, 103, 99, 99]
      [[103, 99, 99], [45, 99], [102, 111, 111, 46, 99]] [] _
      (by decide) (by decide),
   output_not_in_sources.2 envId
      (fun p q h => by
        have h2 : p = q := by simpa [envId] using h
        rw [h2])
      [47, 106, 97, 118, 97, 99]
      [[106, 97, 118, 97, 99], [65, 46, 106, 97, 118, 97]] [] _ (by decide)⟩

theorem output_in_sources_counterexample :
    (loggerGccParserCollectActions envNone [47, 103, 99, 99]
        [[103, 99, 99], [45, 111], [64, 114, 46, 120]] []).1
      = [⟨[64, 114, 46, 120],
          [[47, 103, 99, 99], [45, 111], [64, 114, 46, 120]],
          [[64, 114, 46, 120]]⟩] ∧
    (⟨[64, 114, 46, 120],
        [[47, 103, 99, 99], [45, 111], [64, 114, 46, 120]],
        [[64, 114, 46, 120]]⟩ : Action).output ∈
      (⟨[64, 114, 46, 120],
        [[47, 103, 99, 99], [45, 111], [64, 114, 46, 120]],
        [[64, 114, 46, 120]]⟩ : Action).sources := by
  decide

/-- C9: the Java parser returns 1 and appends exactly one Action per
distinct collected .java source (the collected source set never holds
duplicates), each with arguments = common ++ [source], sources =
[source], and output the canonicalised javacOutputFile (classdir-based
when a class directory was set, source-without-extension otherwise); and
when no -sourcepath was seen and the working directory resolves,
"-sourcepath" and the resolved directory are appended to the common
arguments. -/
theorem javacCollect_perSource (env : Env) (prog : Str) (argv : List Str)
    (actions : List Action) :
    (loggerJavacParserCollectActions env prog argv actions).2 = 1 ∧
    (loggerJavacParserCollectActions env prog argv actions).1
      = actions ++ (javacScan env prog argv).sources.map
          (mkJavacAction env (javacScan env prog argv)) ∧
    (javacScan env prog argv).sources.Nodup ∧
    (∀ src,
      (mkJavacAction env (javacScan env prog argv) src).arguments
        = (javacScan env prog argv).commonArgs ++ [src] ∧
      (mkJavacAction env (javacScan env prog argv) src).sources = [src] ∧
      (mkJavacAction env (javacScan env prog argv) src).output
        = fileInit env (javacOutputFile (javacScan env prog argv) src)) ∧
    ((javacFold env prog argv).hasSourcePath = false →
      ∀ w, makeAbs0 env [46] = some w →
        (javacScan env prog argv).commonArgs
          = (javacFold env prog argv).commonArgs
            ++ [[45, 115, 111, 117, 114, 99, 101, 112, 97, 116, 104], w]) := by
  refine ⟨rfl, ?_, ?_, fun src => ⟨rfl, rfl, rfl⟩, ?_⟩
  · show ((javacScan env prog argv).sources.foldl
        (fun acc src => acc ++ [mkJavacAction env (javacScan env prog argv) src])
        actions) = _
    exact foldl_append_map _ _ _
  · rw [javacScan_sources]
    exact javacFold_nodup env prog argv
  · intro h w hw
    simp [javacScan, h, hw]

theorem javacCollect_perSource_witness :
    (loggerJavacParserCollectActions envId [47, 106, 97, 118, 97, 99]
        [[106, 97, 118, 97, 99], [65, 46, 106, 97, 118, 97]] []).1
      = [] ++ (javacScan envId [47, 106, 97, 118, 97, 99]
          [[106, 97, 118, 97, 99], [65, 46, 106, 97, 118, 97]]).sources.map
          (mkJavacAction envId (javacScan envId [47, 106, 97, 118, 97, 99]
            [[106, 97, 118, 97, 99], [65, 46, 106, 97, 118, 97]])) ∧
    (javacScan envId [47, 106, 97, 118, 97, 99]
        [[106, 97, 118, 97, 99], [65, 46, 106, 97, 118, 97]]).commonArgs
      = (javacFold envId [47, 106, 97, 118, 97, 99]
          [[106, 97, 118, 97, 99], [65, 46, 106, 97, 118, 97]]).commonArgs
        ++ [[45, 115, 111, 117, 114, 99, 101, 112, 97, 116, 104], [46]] :=
  ⟨(javacCollect_perSource envId [47, 106, 97, 118, 97, 99]
      [[106, 97, 118, 97, 99], [65, 46, 106, 97, 118, 97]] []).2.1,
   (javacCollect_perSource envId [47, 106, 97, 118, 97, 99]
      [[106, 97, 118, 97, 99], [65, 46, 106, 97, 118, 97]] []).2.2.2.2
     (by decide) [46] (by decide)⟩

end Ldlogger
